import Mathlib

/-!
Verification of the FlockNet AQM simulator core against its
natural-language specification.

The Rust source is shallowly embedded: `f64` values are modelled as `ℚ`
(the counterexamples below are robust to floating-point rounding),
`Instant`/`Duration` values as rational milliseconds, `u128` microsecond
timestamps as `Nat`, and the per-strategy mutable state as explicit state
records threaded through pure step functions.  Randomness (`rand::thread_rng`)
is modelled by passing the drawn sample as an explicit input.
-/

namespace FlockNet

/-- Packet priority, mirroring `network/packet.rs` (`Priority`). -/
inductive Priority where
  | low
  | normal
  | high
  | critical
deriving DecidableEq

/-- Strategy decision, mirroring `strategies/mod.rs` (`Action`). -/
inductive Action where
  | accept
  | drop
  | mark
deriving DecidableEq

/-- The packet record of `network/packet.rs`. `id` is the `u64` inside
`PacketId`; `created_at_micros` is the `u128` microsecond timestamp;
`data` is the byte payload. -/
structure Packet where
  id : Nat
  source_agent : Nat
  destination_server : Nat
  payload_size : Nat
  priority : Priority
  created_at_micros : Nat
  data : List Nat
deriving DecidableEq

/-- The timestamp-validity threshold used by `Packet::sojourn_time`
(`1_000_000_000_000_000` microseconds, i.e. September 2001). -/
def sojournValidityThreshold : Nat := 1000000000000000

/-- `Packet::sojourn_time` from `network/packet.rs`, as a function of the
packet's `created_at_micros` and the current wall clock in microseconds.
Rust's `saturating_sub` is `Nat` subtraction. -/
def sojournTime (createdAtMicros nowMicros : Nat) : Nat :=
  if createdAtMicros < sojournValidityThreshold then 0
  else
    let elapsedMicros := nowMicros - createdAtMicros
    if elapsedMicros > 30000000 then 0
    else elapsedMicros

/-- The mutable interior of `MetricsCollector` (`metrics/mod.rs`,
`MetricsInner`), with latencies in rational milliseconds. -/
structure MetricsInner where
  packets_sent : Nat
  packets_received : Nat
  packets_dropped : Nat
  total_latency_ms : ℚ
  latency_samples : Nat
  queue_lengths : List Nat
deriving DecidableEq

/-- `MetricsCollector::new` (`metrics/mod.rs`). -/
def MetricsInner.new : MetricsInner :=
  { packets_sent := 0
    packets_received := 0
    packets_dropped := 0
    total_latency_ms := 0
    latency_samples := 0
    queue_lengths := [] }

/-- `MetricsCollector::packet_sent`. -/
def packetSent (m : MetricsInner) : MetricsInner :=
  { m with packets_sent := m.packets_sent + 1 }

/-- `MetricsCollector::packet_received`: the received counter is bumped
first; a latency sample above 30 000 ms is then discarded by the early
`return`, leaving the latency accumulator and sample count untouched. -/
def packetReceived (m : MetricsInner) (latencyMs : ℚ) : MetricsInner :=
  let m1 := { m with packets_received := m.packets_received + 1 }
  if latencyMs > 30000 then m1
  else
    { m1 with
      total_latency_ms := m1.total_latency_ms + latencyMs
      latency_samples := m1.latency_samples + 1 }

/-- `MetricsCollector::packet_dropped`. -/
def packetDropped (m : MetricsInner) : MetricsInner :=
  { m with packets_dropped := m.packets_dropped + 1 }

/-- `MetricsCollector::record_queue_length`. -/
def recordQueueLength (m : MetricsInner) (len : Nat) : MetricsInner :=
  { m with queue_lengths := m.queue_lengths ++ [len] }

/-- `MetricsSnapshot` (`metrics/mod.rs`). -/
structure MetricsSnapshot where
  timestamp : ℚ
  packets_sent : Nat
  packets_received : Nat
  packets_dropped : Nat
  throughput_bps : ℚ
  avg_latency_ms : ℚ
  queue_length : Nat
  packet_loss_rate : ℚ
deriving DecidableEq

/-- `MetricsCollector::snapshot`, with the elapsed wall-clock seconds
passed in explicitly. -/
def snapshot (m : MetricsInner) (elapsed : ℚ) : MetricsSnapshot :=
  let throughput : ℚ :=
    if elapsed > 0 then ((m.packets_received : ℚ) * 1500 * 8) / elapsed else 0
  let avgLatency : ℚ :=
    if m.latency_samples > 0 then
      let avg := m.total_latency_ms / (m.latency_samples : ℚ)
      if avg > 10000 then 0 else avg
    else 0
  let lossRate : ℚ :=
    if m.packets_sent > 0 then
      (m.packets_dropped : ℚ) / (m.packets_sent : ℚ)
    else 0
  { timestamp := elapsed
    packets_sent := m.packets_sent
    packets_received := m.packets_received
    packets_dropped := m.packets_dropped
    throughput_bps := throughput
    avg_latency_ms := avgLatency
    queue_length := m.queue_lengths.getLast?.getD 0
    packet_loss_rate := lossRate }

/-- Counter-relevant events of an execution, as they reach the shared
`MetricsCollector`:
* `sendOk` — `Agent::send_packet` succeeded, `packet_sent` is called
  (`agent.rs` line 146);
* `sendFail` — delivery failed at the agent, `packet_dropped` is called
  (`agent.rs` line 151) with no `packet_sent`;
* `serverDrop` — the server's strategy dropped an in-flight packet,
  `packet_dropped` is called (`server.rs` line 128);
* `receive` — the drainer popped an in-flight packet and reported its
  sojourn in milliseconds (`server.rs` line 169). -/
inductive MetricsEvent where
  | sendOk
  | sendFail
  | serverDrop
  | receive (latencyMs : ℚ)
deriving DecidableEq

/-- Effect of one event on the metrics state, grounded in the collector
methods actually called by `agent.rs` and `server.rs`. -/
def metricsStep (m : MetricsInner) : MetricsEvent → MetricsInner
  | .sendOk => packetSent m
  | .sendFail => packetDropped m
  | .serverDrop => packetDropped m
  | .receive l => packetReceived m l

/-- Metrics state after a trace of events, from a fresh collector. -/
def runMetrics (tr : List MetricsEvent) : MetricsInner :=
  tr.foldl metricsStep MetricsInner.new

/-- A trace is well formed when every `serverDrop`/`receive` consumes a
packet that an earlier successful send put in flight; `k` counts the
packets currently in flight. -/
def validTrace : Nat → List MetricsEvent → Bool
  | _, [] => true
  | k, .sendOk :: tr => validTrace (k + 1) tr
  | k, .sendFail :: tr => validTrace k tr
  | k, .serverDrop :: tr => decide (0 < k) && validTrace (k - 1) tr
  | k, .receive _ :: tr => decide (0 < k) && validTrace (k - 1) tr

/-- Number of agent-side delivery failures in a trace. -/
def countFails (tr : List MetricsEvent) : Nat :=
  tr.countP (fun e => e = .sendFail)

/-- In-flight count after consuming a trace, starting from `k`. -/
def finalInflight : Nat → List MetricsEvent → Nat
  | k, [] => k
  | k, .sendOk :: tr => finalInflight (k + 1) tr
  | k, .sendFail :: tr => finalInflight k tr
  | k, .serverDrop :: tr => finalInflight (k - 1) tr
  | k, .receive _ :: tr => finalInflight (k - 1) tr

/-- RED state (`strategies/red.rs`, `struct Red`). -/
structure RedState where
  min_th : ℚ
  max_th : ℚ
  max_p : ℚ
  w_q : ℚ
  avg_queue : ℚ
  count : Nat
deriving DecidableEq

/-- `Red::new`: `min_th = max(0.3·B, 5)`, `max_th = 0.9·B`,
`max_p = 0.1`, `w_q = 0.02`. -/
def RedState.new (bufferSize : Nat) : RedState :=
  { min_th := max ((bufferSize : ℚ) * (3 / 10)) 5
    max_th := (bufferSize : ℚ) * (9 / 10)
    max_p := 1 / 10
    w_q := 1 / 50
    avg_queue := 0
    count := 0 }

/-- The base probability `p_b` bound inside the band branch of
`Red::calc_probability` (`red.rs` line 36). -/
def redPbBand (st : RedState) (avg : ℚ) : ℚ :=
  ((avg - st.min_th) / (st.max_th - st.min_th)) * st.max_p

/-- `Red::calc_probability` (`red.rs` lines 29-39): zero below `min_th`,
one at or above `max_th`, otherwise the count-adjusted
`p_b / (1 − count·p_b)`. -/
def calcProbability (st : RedState) (avg : ℚ) : ℚ :=
  if avg < st.min_th then 0
  else if avg ≥ st.max_th then 1
  else
    let p_b := redPbBand st avg
    p_b / (1 - (st.count : ℚ) * p_b)

/-- The EWMA update at the head of `Red::on_enqueue` (`red.rs` line 45). -/
def redEwma (st : RedState) (queueLen : Nat) : ℚ :=
  (1 - st.w_q) * st.avg_queue + st.w_q * (queueLen : ℚ)

/-- The drop probability computed by `Red::on_enqueue` (`red.rs` lines
45-46): the EWMA is advanced, then `calc_probability` is evaluated at the
new average with the current `count`. -/
def redOnEnqueueProb (st : RedState) (queueLen : Nat) : ℚ :=
  calcProbability { st with avg_queue := redEwma st queueLen }
    (redEwma st queueLen)

/-- `Red::on_enqueue` (`red.rs` lines 43-60) with the uniform draw of
`rand::thread_rng().gen::<f64>()` passed as `draw`.  The probabilistic
comparison `draw < p` only happens when `¬(p ≥ 1)` and `p > 0`. -/
def redOnEnqueue (st : RedState) (queueLen : Nat) (draw : ℚ) :
    Action × RedState :=
  let avg := redEwma st queueLen
  let st1 := { st with avg_queue := avg }
  let dropProb := calcProbability st1 avg
  if dropProb ≥ 1 then (.drop, { st1 with count := 0 })
  else if dropProb > 0 ∧ draw < dropProb then (.drop, { st1 with count := 0 })
  else (.accept, { st1 with count := st1.count + 1 })

/-- `Red::update` (`red.rs` lines 64-67). -/
def redUpdate (st : RedState) (queueLen : Nat) : RedState :=
  { st with avg_queue := redEwma st queueLen }

/-- `Red::reset` (`red.rs` lines 71-74): only `avg_queue` and `count` are
cleared; the thresholds, `w_q` and `max_p` are left as they are. -/
def redReset (st : RedState) : RedState :=
  { st with avg_queue := 0, count := 0 }

/-- `Red::clone_box` (`red.rs` lines 76-78): a field-for-field copy. -/
def redCloneBox (st : RedState) : RedState := st

/-- Adaptive RED state (`red.rs`, `struct AdaptiveRed`), with
`last_update` as a rational millisecond instant. -/
structure ARedState where
  red : RedState
  target : ℚ
  alpha : ℚ
  beta : ℚ
  last_update : ℚ
deriving DecidableEq

/-- `AdaptiveRed::new` at construction instant `now`. -/
def ARedState.new (bufferSize : Nat) (now : ℚ) : ARedState :=
  let red := RedState.new bufferSize
  { red := red
    target := (1 / 2) * (red.min_th + red.max_th)
    alpha := 1 / 100
    beta := 9 / 10
    last_update := now }

/-- `AdaptiveRed::on_enqueue` delegates to the inner RED. -/
def aredOnEnqueue (st : ARedState) (queueLen : Nat) (draw : ℚ) :
    Action × ARedState :=
  let (a, red) := redOnEnqueue st.red queueLen draw
  (a, { st with red := red })

/-- `AdaptiveRed::update` (`red.rs` lines 113-124): RED's EWMA update,
then — every 500 ms — the `max_p` adaptation. -/
def aredUpdate (st : ARedState) (now : ℚ) (queueLen : Nat) : ARedState :=
  let red := redUpdate st.red queueLen
  let st1 := { st with red := red }
  if now - st1.last_update ≥ 500 then
    if st1.red.avg_queue < st1.target ∧ st1.red.max_p < 1 / 2 then
      { st1 with
        red :=
          { st1.red with
            max_p := st1.red.max_p + min st1.alpha (st1.red.max_p / 4) }
        last_update := now }
    else if st1.red.avg_queue > st1.target ∧ st1.red.max_p > 1 / 100 then
      { st1 with
        red := { st1.red with max_p := st1.red.max_p * st1.beta }
        last_update := now }
    else { st1 with last_update := now }
  else st1

/-- `AdaptiveRed::reset` (`red.rs` lines 128-131): inner RED reset (which
leaves `max_p` untouched) plus a fresh `last_update`. -/
def aredReset (st : ARedState) (now : ℚ) : ARedState :=
  { st with red := redReset st.red, last_update := now }

/-- `AdaptiveRed::clone_box`: a field-for-field copy. -/
def aredCloneBox (st : ARedState) : ARedState := st

/-- PIE state (`strategies/pie.rs`, `struct Pie`); instants and durations
in rational milliseconds. -/
structure PieState where
  target_delay : ℚ
  drop_prob : ℚ
  alpha : ℚ
  beta : ℚ
  last_update : ℚ
  update_interval : ℚ
  qdelay_old : ℚ
  burst_allowance : ℚ
  burst_start : Option ℚ
  bandwidth_bps : ℚ
deriving DecidableEq

/-- `Pie::new_with_bandwidth` at construction instant `now`. -/
def PieState.new (bandwidthMbps : ℚ) (now : ℚ) : PieState :=
  { target_delay := 15
    drop_prob := 0
    alpha := 1 / 8
    beta := 5 / 4
    last_update := now
    update_interval := 30
    qdelay_old := 0
    burst_allowance := 150
    burst_start := none
    bandwidth_bps := bandwidthMbps * 1000000 }

/-- `Pie::estimate_queue_delay` (`pie.rs` lines 40-43), in milliseconds. -/
def pieEstimateQueueDelay (st : PieState) (queueLen : Nat) : ℚ :=
  let packetDelayMs := (1500 * 8) / st.bandwidth_bps * 1000
  (queueLen : ℚ) * packetDelayMs

/-- The tail of `Pie::on_enqueue` after the burst-window early return
(`pie.rs` lines 57-66): a short queue re-opens the burst window, then a
probabilistic drop against `drop_prob`. -/
def pieOnEnqueueTail (st : PieState) (now : ℚ) (queueLen : Nat)
    (draw : ℚ) : Action × PieState :=
  let st1 := if queueLen < 10 then { st with burst_start := some now } else st
  if st1.drop_prob > 0 ∧ draw < st1.drop_prob then (.drop, st1)
  else (.accept, st1)

/-- `Pie::on_enqueue` (`pie.rs` lines 47-67): unconditional accept inside
the burst-allowance window, otherwise `pieOnEnqueueTail`. -/
def pieOnEnqueue (st : PieState) (now : ℚ) (queueLen : Nat) (draw : ℚ) :
    Action × PieState :=
  match st.burst_start with
  | some bs =>
      if now - bs < st.burst_allowance then (.accept, st)
      else pieOnEnqueueTail st now queueLen draw
  | none => pieOnEnqueueTail st now queueLen draw

/-- The `qdelay` measurement taken by `Pie::update` (`pie.rs` lines
76-80): the observed average sojourn when positive, else the estimate
from the queue length. -/
def pieQdelay (st : PieState) (queueLen : Nat) (avgSojournMs : ℚ) : ℚ :=
  if avgSojournMs > 0 then avgSojournMs else pieEstimateQueueDelay st queueLen

/-- `Pie::update` (`pie.rs` lines 69-92): gated to once per
`update_interval`; then the PI step
`drop_prob ← clamp(drop_prob + α(qdelay − target) + β(qdelay − qdelay_old), 0, 1)`. -/
def pieUpdate (st : PieState) (now : ℚ) (queueLen : Nat)
    (avgSojournMs : ℚ) : PieState :=
  if now - st.last_update < st.update_interval then st
  else
    let qdelay := pieQdelay st queueLen avgSojournMs
    let targetMs := st.target_delay
    let p := st.alpha * (qdelay - targetMs)
    let i := st.beta * (qdelay - st.qdelay_old)
    { st with
      drop_prob := max 0 (min 1 (st.drop_prob + p + i))
      qdelay_old := qdelay
      last_update := now }

/-- `Pie::reset` (`pie.rs` lines 96-101) at instant `now`. -/
def pieReset (st : PieState) (now : ℚ) : PieState :=
  { st with
    drop_prob := 0
    qdelay_old := 0
    burst_start := none
    last_update := now }

/-- `Pie::clone_box`: a field-for-field copy. -/
def pieCloneBox (st : PieState) : PieState := st

/-- BLUE state (`strategies/blue.rs`, `struct Blue`); instants in
rational milliseconds. -/
structure BlueState where
  p_mark : ℚ
  d1 : ℚ
  d2 : ℚ
  freeze_time : ℚ
  last_update : ℚ
  buffer_size : Nat
  last_increase : ℚ
  last_decrease : ℚ
  last_loss_event : Option ℚ
deriving DecidableEq

/-- `Blue::new` at construction instant `now`. -/
def BlueState.new (bufferSize : Nat) (now : ℚ) : BlueState :=
  { p_mark := 0
    d1 := 1 / 50
    d2 := 1 / 500
    freeze_time := 100
    last_update := now
    buffer_size := bufferSize
    last_increase := now
    last_decrease := now
    last_loss_event := none }

/-- `Blue::can_increase` at instant `now`. -/
def blueCanIncrease (st : BlueState) (now : ℚ) : Prop :=
  now - st.last_increase ≥ st.freeze_time

instance (st : BlueState) (now : ℚ) : Decidable (blueCanIncrease st now) := by
  unfold blueCanIncrease
  infer_instance

/-- `Blue::can_decrease` at instant `now`. -/
def blueCanDecrease (st : BlueState) (now : ℚ) : Prop :=
  now - st.last_decrease ≥ st.freeze_time

instance (st : BlueState) (now : ℚ) : Decidable (blueCanDecrease st now) := by
  unfold blueCanDecrease
  infer_instance

/-- `Blue::on_enqueue` (`blue.rs` lines 45-72).  Rust's
`(buffer_size as f64 * 0.8) as usize` truncates toward zero, which on
naturals is `⌊0.8·B⌋ = 4·B / 5` in integer division. -/
def blueOnEnqueue (st : BlueState) (now : ℚ) (queueLen : Nat)
    (draw : ℚ) : Action × BlueState :=
  let threshold := 4 * st.buffer_size / 5
  let st1 :=
    if queueLen ≥ threshold ∧ blueCanIncrease st now then
      { st with p_mark := min (st.p_mark + st.d1) 1, last_increase := now }
    else st
  if queueLen ≥ st1.buffer_size then
    let st2 :=
      match st1.last_loss_event with
      | some lastLoss =>
          if now - lastLoss < st1.freeze_time then
            { st1 with p_mark := min (st1.p_mark + st1.d1 * 2) 1 }
          else st1
      | none => st1
    (.drop,
      { st2 with last_loss_event := some now, last_increase := now })
  else if st1.p_mark > 0 ∧ draw < st1.p_mark then (.drop, st1)
  else (.accept, st1)

/-- `Blue::on_dequeue` (`blue.rs` lines 74-87). -/
def blueOnDequeue (st : BlueState) (now : ℚ) (queueLen : Nat) : BlueState :=
  if queueLen < st.buffer_size / 4 ∧ blueCanDecrease st now then
    match st.last_loss_event with
    | some lastLoss =>
        if now - lastLoss > st.freeze_time * 2 then
          { st with p_mark := max (st.p_mark - st.d2) 0, last_decrease := now }
        else st
    | none =>
        { st with p_mark := max (st.p_mark - st.d2) 0, last_decrease := now }
  else st

/-- `Blue::update` (`blue.rs` lines 89-102). -/
def blueUpdate (st : BlueState) (now : ℚ) (queueLen : Nat) : BlueState :=
  if now - st.last_update > st.freeze_time * 5 then
    let target := st.buffer_size / 2
    let st1 :=
      if queueLen > target ∧ st.p_mark < 1 / 2 then
        { st with p_mark := min (st.p_mark + st.d1 * (1 / 2)) 1 }
      else if queueLen < target / 2 ∧ st.p_mark > 1 / 100 then
        { st with p_mark := max (st.p_mark - st.d2 * (1 / 2)) 0 }
      else st
    { st1 with last_update := now }
  else st

/-- `Blue::reset` (`blue.rs` lines 105-112) at instant `now`. -/
def blueReset (st : BlueState) (now : ℚ) : BlueState :=
  { st with
    p_mark := 0
    last_update := now
    last_increase := now
    last_decrease := now
    last_loss_event := none }

/-- `Blue::clone_box` (`blue.rs` lines 114-116): a freshly constructed
instance with the same `buffer_size`. -/
def blueCloneBox (st : BlueState) (now : ℚ) : BlueState :=
  BlueState.new st.buffer_size now

/-- The control sub-state of CoDel (`strategies/codel.rs`): everything
except the internal packet queue and the constant parameters. -/
structure CoDelCtl where
  first_above_time : Option ℚ
  drop_next : ℚ
  count : Nat
  dropping : Bool
deriving DecidableEq

/-- CoDel state (`codel.rs`, `struct CoDel`); the internal queue holds
packets tagged with their enqueue instant. -/
structure CoDelState where
  target : ℚ
  interval : ℚ
  ctl : CoDelCtl
  queue : List (Packet × ℚ)
  buffer_size : Nat
deriving DecidableEq

/-- `CoDel::new` at construction instant `now`. -/
def CoDelState.new (bufferSize : Nat) (now : ℚ) : CoDelState :=
  { target := 5
    interval := 100
    ctl :=
      { first_above_time := none
        drop_next := now
        count := 0
        dropping := false }
    queue := []
    buffer_size := bufferSize }

/-- The value of `CoDel::control_law` (`codel.rs` lines 38-43):
`interval / max(sqrt(count), 1)`.  The real-valued `f64::sqrt` is
abstracted by the supplied `sqrtv`; only `sqrtv count ≥ 0` matters for
any property proved here. -/
def codelControlLaw (sqrtv : Nat → ℚ) (interval : ℚ) (count : Nat) : ℚ :=
  interval / max (sqrtv count) 1

/-- `CoDel::on_enqueue` (`codel.rs` lines 46-57): tail-drop against
`buffer_size`, otherwise push with the current timestamp. -/
def codelOnEnqueue (st : CoDelState) (now : ℚ) (p : Packet) :
    Action × CoDelState :=
  if st.queue.length ≥ st.buffer_size then (.drop, st)
  else (.accept, { st with queue := st.queue ++ [(p, now)] })

/-- The dequeue loop of `CoDel::on_dequeue` (`codel.rs` lines 59-113),
structurally recursive on the internal queue.  Returns the control state
and the remaining queue.  `now` is the instant of the call (the Rust loop
re-reads `Instant::now()` each iteration; within one locked call the
difference is not observable in this model). -/
def codelDeqAux (sqrtv : Nat → ℚ) (target interval now : ℚ) :
    CoDelCtl → List (Packet × ℚ) → CoDelCtl × List (Packet × ℚ)
  | ctl, [] => ({ ctl with dropping := false, first_above_time := none }, [])
  | ctl, (_, enqTime) :: rest =>
    let sojourn := now - enqTime
    if sojourn < target then
      ({ ctl with first_above_time := none, dropping := false }, rest)
    else
      match ctl.first_above_time with
      | none => ({ ctl with first_above_time := some now }, rest)
      | some firstAbove =>
          if now - firstAbove < interval then (ctl, rest)
          else if ctl.dropping = false then
            codelDeqAux sqrtv target interval now
              { ctl with dropping := true, count := 1, drop_next := now } rest
          else if now ≥ ctl.drop_next then
            codelDeqAux sqrtv target interval now
              { ctl with
                count := ctl.count + 1
                drop_next :=
                  now + codelControlLaw sqrtv interval (ctl.count + 1) } rest
          else (ctl, rest)

/-- `CoDel::on_dequeue` on the full state. -/
def codelOnDequeue (sqrtv : Nat → ℚ) (st : CoDelState) (now : ℚ) :
    CoDelState :=
  let r := codelDeqAux sqrtv st.target st.interval now st.ctl st.queue
  { st with ctl := r.1, queue := r.2 }

/-- `CoDel::reset` (`codel.rs` lines 118-123): clears `first_above_time`,
`dropping`, `count` and the queue — but not `drop_next`. -/
def codelReset (st : CoDelState) : CoDelState :=
  { st with
    ctl :=
      { st.ctl with first_above_time := none, dropping := false, count := 0 }
    queue := [] }

/-- `CoDel::clone_box` (`codel.rs` lines 125-127): a freshly constructed
instance with the same `buffer_size`, discarding all learned state. -/
def codelCloneBox (st : CoDelState) (now : ℚ) : CoDelState :=
  CoDelState.new st.buffer_size now

/-- Per-flow CoDel state of FQ-CoDel (`strategies/fq_codel.rs`,
`struct FlowState`). -/
structure FlowState where
  first_above_time : Option ℚ
  drop_next : ℚ
  count : Nat
  dropping : Bool
deriving DecidableEq

/-- `FlowState::new` at instant `now`. -/
def FlowState.new (now : ℚ) : FlowState :=
  { first_above_time := none, drop_next := now, count := 0, dropping := false }

/-- FQ-CoDel state (`fq_codel.rs`, `struct FqCoDel`).  The two hash maps
are modelled as association lists with distinct keys. -/
structure FqState where
  num_flows : Nat
  flow_states : List (Nat × FlowState)
  flow_queues : List (Nat × List (Packet × ℚ))
  buffer_size : Nat
  target : ℚ
  interval : ℚ
deriving DecidableEq

/-- `FqCoDel::new`. -/
def FqState.new (bufferSize : Nat) : FqState :=
  { num_flows := 1024
    flow_states := []
    flow_queues := []
    buffer_size := bufferSize
    target := 5
    interval := 100 }

/-- `FqCoDel::hash_flow`: `source_agent % 1024`. -/
def fqHashFlow (p : Packet) : Nat :=
  p.source_agent % 1024

/-- Association-list lookup standing for `HashMap::get`. -/
def alistLookup {α : Type} (l : List (Nat × α)) (k : Nat) : Option α :=
  (l.find? (fun e => e.1 = k)).map Prod.snd

/-- Association-list update standing for a mutation through
`HashMap::get_mut` / `entry(..).or_insert_with(..)`: update the entry in
place when the key is present, otherwise append a fresh entry built from
the default. -/
def alistUpsert {α : Type} (l : List (Nat × α)) (k : Nat) (dflt : α)
    (f : α → α) : List (Nat × α) :=
  if (l.find? (fun e => e.1 = k)).isSome then
    l.map (fun e => if e.1 = k then (e.1, f e.2) else e)
  else l ++ [(k, f dflt)]

/-- `FqCoDel::total_queue_length`. -/
def fqTotalLen (st : FqState) : Nat :=
  (st.flow_queues.map (fun e => e.2.length)).sum

/-- `FqCoDel::flow_queue_length`. -/
def fqFlowLen (st : FqState) (flowId : Nat) : Nat :=
  ((alistLookup st.flow_queues flowId).map List.length).getD 0

/-- `FqCoDel::estimate_sojourn_time` (`fq_codel.rs` lines 75-80):
`queue_len · 120` microseconds, i.e. `queue_len · 3/25` milliseconds. -/
def fqEstimateSojourn (st : FqState) (flowId : Nat) : ℚ :=
  (fqFlowLen st flowId : ℚ) * (3 / 25)

/-- The per-flow CoDel decision of `FqCoDel::on_enqueue` (`fq_codel.rs`
lines 107-139), returning the drop verdict and the updated flow state.
Unlike `codel.rs`, the control law here is evaluated at the
pre-increment `count`. -/
def fqFlowDecision (sqrtv : Nat → ℚ) (target interval now : ℚ)
    (sojourn : ℚ) (fs : FlowState) : Bool × FlowState :=
  if sojourn < target then
    (false, { fs with first_above_time := none, dropping := false, count := 0 })
  else
    let fs1 :=
      if fs.first_above_time = none then
        { fs with first_above_time := some now }
      else fs
    match fs1.first_above_time with
    | some firstAbove =>
        if now - firstAbove > interval then
          if fs1.dropping = false then
            (true, { fs1 with dropping := true, count := 1, drop_next := now })
          else if now ≥ fs1.drop_next then
            (true,
              { fs1 with
                count := fs1.count + 1
                drop_next := now + codelControlLaw sqrtv interval fs1.count })
          else (false, fs1)
        else (false, fs1)
    | none => (false, fs1)

/-- `FqCoDel::on_enqueue` (`fq_codel.rs` lines 84-156): tail-drop when
the total buffer is full, else per-flow CoDel against the estimated
sojourn, pushing to the flow queue on acceptance. -/
def fqOnEnqueue (sqrtv : Nat → ℚ) (st : FqState) (now : ℚ) (p : Packet) :
    Action × FqState :=
  let flowId := fqHashFlow p
  if fqTotalLen st ≥ st.buffer_size then (.drop, st)
  else
    let sojourn := fqEstimateSojourn st flowId
    let fs := (alistLookup st.flow_states flowId).getD (FlowState.new now)
    let d := fqFlowDecision sqrtv st.target st.interval now sojourn fs
    let st1 :=
      { st with
        flow_states :=
          alistUpsert st.flow_states flowId (FlowState.new now)
            (fun _ => d.2) }
    if d.1 then (.drop, st1)
    else
      (.accept,
        { st1 with
          flow_queues :=
            alistUpsert st1.flow_queues flowId []
              (fun q => q ++ [(p, now)]) })

/-- The iteration of `FqCoDel::on_dequeue` over the sorted flow ids
(`fq_codel.rs` lines 163-170): pop the front of the first non-empty flow
queue encountered, then stop. -/
def fqServe (qs : List (Nat × List (Packet × ℚ))) :
    List Nat → List (Nat × List (Packet × ℚ))
  | [] => qs
  | flowId :: rest =>
    match alistLookup qs flowId with
    | some (_ :: _) =>
        qs.map (fun e => if e.1 = flowId then (e.1, e.2.tail) else e)
    | _ => fqServe qs rest

/-- `FqCoDel::on_dequeue` (`fq_codel.rs` lines 158-171): collect the flow
ids, sort them (`Vec::sort`, modelled by `mergeSort`), and serve the
first non-empty flow in that order.  There is no round-robin cursor. -/
def fqOnDequeue (st : FqState) : FqState :=
  let flowIds := (st.flow_queues.map Prod.fst).mergeSort (fun a b => a ≤ b)
  { st with flow_queues := fqServe st.flow_queues flowIds }

/-- `FqCoDel::update` (`fq_codel.rs` lines 173-176): prune idle flow
states and empty flow queues. -/
def fqUpdate (st : FqState) : FqState :=
  { st with
    flow_states :=
      st.flow_states.filter
        (fun e => e.2.dropping || e.2.first_above_time.isSome)
    flow_queues := st.flow_queues.filter (fun e => ¬e.2.isEmpty) }

/-- `FqCoDel::reset` (`fq_codel.rs` lines 180-183). -/
def fqReset (st : FqState) : FqState :=
  { st with flow_states := [], flow_queues := [] }

/-- `FqCoDel::clone_box` (`fq_codel.rs` lines 185-187): a freshly
constructed instance with the same `buffer_size`. -/
def fqCloneBox (st : FqState) : FqState :=
  FqState.new st.buffer_size

/-- Drop-Tail state (`strategies/static_strategies.rs`).  `Fifo` is
field-for-field identical, so one record models both. -/
structure DropTailState where
  buffer_size : Nat
deriving DecidableEq

/-- `DropTail::new` / `Fifo::new`. -/
def DropTailState.new (bufferSize : Nat) : DropTailState :=
  { buffer_size := bufferSize }

/-- `DropTail::on_enqueue` and `Fifo::on_enqueue`
(`static_strategies.rs`): drop exactly when `queue_len ≥ buffer_size`. -/
def dropTailOnEnqueue (st : DropTailState) (queueLen : Nat) : Action :=
  if queueLen ≥ st.buffer_size then .drop else .accept

/-- `DropTail::reset` / `Fifo::reset`: no state to clear. -/
def dropTailReset (st : DropTailState) : DropTailState := st

/-- `DropTail::clone_box` / `Fifo::clone_box`: a field-for-field copy. -/
def dropTailCloneBox (st : DropTailState) : DropTailState := st

/-- The buffer mutation of `Server::enqueue_packet` (`server.rs` lines
123-133): `Accept` and `Mark` push to the tail, `Drop` leaves the buffer
unchanged.  The server performs no capacity check of its own. -/
def serverApply (buffer : List Packet) (p : Packet) : Action → List Packet
  | .accept => buffer ++ [p]
  | .mark => buffer ++ [p]
  | .drop => buffer

/-- `Server::enqueue_packet` specialised to a PIE-governed server: the
strategy sees the pre-insertion length, then `serverApply` runs. -/
def serverEnqueuePie (st : PieState) (buffer : List Packet) (p : Packet)
    (now : ℚ) (draw : ℚ) : PieState × List Packet :=
  let r := pieOnEnqueue st now buffer.length draw
  (r.2, serverApply buffer p r.1)

/-- `Server::enqueue_packet` specialised to a Drop-Tail (or FIFO)
governed server. -/
def serverEnqueueDropTail (st : DropTailState) (buffer : List Packet)
    (p : Packet) : List Packet :=
  serverApply buffer p (dropTailOnEnqueue st buffer.length)

/-- Little-endian fixed-width byte encoding of a natural: `w` bytes,
least significant first.  This is the integer layout of the bincode v1
legacy configuration used by `bincode::deserialize` on the server side
and by the format-compatible `wincode::serialize` on the agent side. -/
def toLE : Nat → Nat → List Nat
  | 0, _ => []
  | w + 1, n => n % 256 :: toLE w (n / 256)

/-- Little-endian byte decoding. -/
def fromLE (bs : List Nat) : Nat :=
  bs.foldr (fun b acc => b + 256 * acc) 0

/-- Read exactly `k` bytes from the front of the stream. -/
def readN (k : Nat) (l : List Nat) : Option (List Nat × List Nat) :=
  if k ≤ l.length then some (l.take k, l.drop k) else none

/-- The `u32` tag bincode assigns to each `Priority` variant. -/
def priorityTag : Priority → Nat
  | .low => 0
  | .normal => 1
  | .high => 2
  | .critical => 3

/-- Decoding of a `Priority` variant tag; unknown tags fail. -/
def priorityOfTag : Nat → Option Priority
  | 0 => some .low
  | 1 => some .normal
  | 2 => some .high
  | 3 => some .critical
  | _ => none

/-- Serialization of a `Packet` as performed in `Agent::send_w_connection`
(`agent.rs` line 180): bincode-v1 layout, fields in declaration order —
`id : u64`, `source_agent : u32`, `destination_server : u32`,
`payload_size : u32`, `priority` as a `u32` variant tag,
`created_at_micros : u128`, then `data` as a `u64` length prefix followed
by the raw bytes. -/
def serializePacket (p : Packet) : List Nat :=
  toLE 8 p.id ++ toLE 4 p.source_agent ++ toLE 4 p.destination_server ++
    toLE 4 p.payload_size ++ toLE 4 (priorityTag p.priority) ++
    toLE 16 p.created_at_micros ++ toLE 8 p.data.length ++ p.data

/-- Deserialization of a `Packet` as performed in
`Server::handle_connection` (`server.rs` line 109): parse the same layout
from the front of the byte stream; trailing bytes are ignored, malformed
input yields `none`. -/
def deserializePacket (bs : List Nat) : Option Packet :=
  (readN 8 bs).bind fun r1 =>
  (readN 4 r1.2).bind fun r2 =>
  (readN 4 r2.2).bind fun r3 =>
  (readN 4 r3.2).bind fun r4 =>
  (readN 4 r4.2).bind fun r5 =>
  (priorityOfTag (fromLE r5.1)).bind fun prio =>
  (readN 16 r5.2).bind fun r6 =>
  (readN 8 r6.2).bind fun r7 =>
  (readN (fromLE r7.1) r7.2).bind fun r8 =>
  some
    { id := fromLE r1.1
      source_agent := fromLE r2.1
      destination_server := fromLE r3.1
      payload_size := fromLE r4.1
      priority := prio
      created_at_micros := fromLE r6.1
      data := r8.1 }

/-- Field bounds guaranteed by the Rust types: `u64` id, `u32` agent,
server, and size fields, `u128` timestamp, and a `u64` byte length. -/
def PacketWf (p : Packet) : Prop :=
  p.id < 2 ^ 64 ∧ p.source_agent < 2 ^ 32 ∧ p.destination_server < 2 ^ 32 ∧
    p.payload_size < 2 ^ 32 ∧ p.created_at_micros < 2 ^ 128 ∧
    p.data.length < 2 ^ 64

instance (p : Packet) : Decidable (PacketWf p) := by
  unfold PacketWf
  infer_instance

/-- Uniform input record for one strategy callback: the wall-clock
instant, the queue length the server passed in, the uniform random draw
consumed (if any), the average sojourn measurement (for `update`), and
the arriving packet (for `on_enqueue`). -/
structure OpIn where
  now : ℚ
  queueLen : Nat
  draw : ℚ
  sojourn : ℚ
  pkt : Packet

/-- One strategy callback: `on_enqueue`, `on_dequeue` or `update`. -/
inductive StrategyOp where
  | enq (i : OpIn)
  | deq (i : OpIn)
  | upd (i : OpIn)

/-- Replay of a callback sequence against RED. -/
def redStep (st : RedState) : StrategyOp → RedState
  | .enq i => (redOnEnqueue st i.queueLen i.draw).2
  | .deq _ => st
  | .upd i => redUpdate st i.queueLen

/-- Replay of a callback sequence against Adaptive RED. -/
def aredStep (st : ARedState) : StrategyOp → ARedState
  | .enq i => (aredOnEnqueue st i.queueLen i.draw).2
  | .deq _ => st
  | .upd i => aredUpdate st i.now i.queueLen

/-- Replay of a callback sequence against PIE. -/
def pieStep (st : PieState) : StrategyOp → PieState
  | .enq i => (pieOnEnqueue st i.now i.queueLen i.draw).2
  | .deq _ => st
  | .upd i => pieUpdate st i.now i.queueLen i.sojourn

/-- Replay of a callback sequence against BLUE. -/
def blueStep (st : BlueState) : StrategyOp → BlueState
  | .enq i => (blueOnEnqueue st i.now i.queueLen i.draw).2
  | .deq i => blueOnDequeue st i.now i.queueLen
  | .upd i => blueUpdate st i.now i.queueLen

/-- Replay of a callback sequence against CoDel. -/
def codelStep (sqrtv : Nat → ℚ) (st : CoDelState) : StrategyOp → CoDelState
  | .enq i => (codelOnEnqueue st i.now i.pkt).2
  | .deq i => codelOnDequeue sqrtv st i.now
  | .upd _ => st

/-- Replay of a callback sequence against FQ-CoDel. -/
def fqStep (sqrtv : Nat → ℚ) (st : FqState) : StrategyOp → FqState
  | .enq i => (fqOnEnqueue sqrtv st i.now i.pkt).2
  | .deq _ => fqOnDequeue st
  | .upd _ => fqUpdate st

/-- Replay of a callback sequence against Drop-Tail / FIFO (stateless). -/
def dropTailStep (st : DropTailState) : StrategyOp → DropTailState
  | _ => st

/-- A concrete packet used by witnesses and counterexamples. -/
def samplePacket : Packet :=
  { id := 0
    source_agent := 0
    destination_server := 0
    payload_size := 0
    priority := .normal
    created_at_micros := 1000000000000000
    data := [] }

/-- State of a PIE-governed server (strategy state and buffer) after `n`
back-to-back enqueue arrivals at instant `0` with the median draw, from a
fresh `Pie::new()` and an empty buffer.  The first arrival sees the short
queue and opens the burst window, so every arrival is accepted. -/
def pieServerRunN (n : Nat) : PieState × List Packet :=
  (List.replicate n ()).foldl
    (fun s _ => serverEnqueuePie s.1 s.2 samplePacket 0 (1 / 2))
    (PieState.new 100 0, [])

/-- Decision equivalence of CoDel control states: equal on every field
that can influence behaviour — `drop_next` is only required to agree
while `dropping` is set, because outside dropping mode it is overwritten
before it is ever read. -/
def ctlEquiv (a b : CoDelCtl) : Prop :=
  a.first_above_time = b.first_above_time ∧ a.count = b.count ∧
    a.dropping = b.dropping ∧ (a.dropping = true → a.drop_next = b.drop_next)

/-- Decision equivalence of full CoDel states: equal parameters, equal
queues, and `ctlEquiv` control states. -/
def codelStateEquiv (a b : CoDelState) : Prop :=
  a.target = b.target ∧ a.interval = b.interval ∧
    a.buffer_size = b.buffer_size ∧ a.queue = b.queue ∧ ctlEquiv a.ctl b.ctl

/-- Adaptive RED state obtained by one effective `update` tick (which
raises `max_p` to 0.11) followed by `reset` at instant 500. -/
def aredC6 : ARedState :=
  aredReset (aredUpdate (ARedState.new 100 0) 500 0) 500

/-- Two FQ-CoDel flows with two queued packets each, keyed 1 and 2. -/
def c2Queues : List (Nat × List (Packet × ℚ)) :=
  [(1, [(samplePacket, 0), (samplePacket, 0)]),
    (2, [(samplePacket, 0), (samplePacket, 0)])]

/-- FQ-CoDel state holding the two-flow queue configuration. -/
def c2St : FqState := { FqState.new 4 with flow_queues := c2Queues }

/-- FQ-CoDel state with one packet queued in flow 2 and an empty entry
for flow 5. -/
def c2WitSt : FqState :=
  { FqState.new 4 with
    flow_queues := [(2, [(samplePacket, 0)]), (5, [])] }

/-- The constructor-fixed parameter fields of a RED state. -/
def redParams (st : RedState) : ℚ × ℚ × ℚ × ℚ :=
  (st.min_th, st.max_th, st.max_p, st.w_q)

/-- The constructor-fixed parameter fields of a PIE state. -/
def pieParams (st : PieState) : ℚ × ℚ × ℚ × ℚ × ℚ × ℚ :=
  (st.target_delay, st.alpha, st.beta, st.update_interval,
    st.burst_allowance, st.bandwidth_bps)

/-- The constructor-fixed parameter fields of a BLUE state. -/
def blueParams (st : BlueState) : ℚ × ℚ × ℚ × Nat :=
  (st.d1, st.d2, st.freeze_time, st.buffer_size)

/-- The constructor-fixed parameter fields of a CoDel state. -/
def codelParams (st : CoDelState) : ℚ × ℚ × Nat :=
  (st.target, st.interval, st.buffer_size)

/-- The constructor-fixed parameter fields of an FQ-CoDel state. -/
def fqParams (st : FqState) : Nat × Nat × ℚ × ℚ :=
  (st.num_flows, st.buffer_size, st.target, st.interval)

/-- RED state after `n` enqueue decisions at queue length `0` with the
median draw, from a fresh `Red::new(100)`: the EWMA stays at zero (below
`min_th`), so every packet is accepted and `count` climbs to `n`. -/
def redC3Run (n : Nat) : RedState :=
  (List.replicate n ()).foldl (fun s _ => (redOnEnqueue s 0 (1 / 2)).2)
    (RedState.new 100)

/-- PIE state after one effective update measuring a 100 ms queue delay,
from a fresh instance. -/
def pieC5a : PieState := pieUpdate (PieState.new 100 0) 30 0 100

/-- PIE state after a second effective update measuring a 16 ms queue
delay (still above the 15 ms target). -/
def pieC5b : PieState := pieUpdate pieC5a 60 0 16

/-- C7: for every packet whose creation timestamp passes the validity
threshold that `Packet::new` checks (at least `10^15` microseconds since
the epoch), `Packet::sojourn_time` equals the elapsed time `now −
created_at` clamped to the window `[0, 30 s]`: negative apparent elapsed
time saturates to zero, an apparent elapsed value above 30 000 000
microseconds is reported as exactly zero, and the result never exceeds
the window. -/
theorem c7_sojourn_time_clamped (createdAt now : Nat)
    (h : sojournValidityThreshold ≤ createdAt) :
    sojournTime createdAt now =
        (if now - createdAt > 30000000 then 0 else now - createdAt) ∧
      sojournTime createdAt now ≤ 30000000 := by
  have hlt : ¬ createdAt < sojournValidityThreshold := not_lt.mpr h
  constructor
  · simp only [sojournTime, if_neg hlt]
  · simp only [sojournTime, if_neg hlt]
    split
    · exact Nat.zero_le _
    · omega

/-- Witness for C7 at a concrete timestamp pair. -/
theorem c7_sojourn_time_clamped_witness :
    sojournValidityThreshold ≤ 1000000000000000 ∧
      (sojournTime 1000000000000000 1000000000000005 =
          (if 1000000000000005 - 1000000000000000 > 30000000 then 0
            else 1000000000000005 - 1000000000000000) ∧
        sojournTime 1000000000000000 1000000000000005 ≤ 30000000) :=
  ⟨by decide, c7_sojourn_time_clamped 1000000000000000 1000000000000005
    (by decide)⟩

/-- C10: `MetricsCollector::packet_received` always increments the
received counter; a latency sample above 30 000 ms is discarded before
touching the latency accumulator and sample count, while a sample of at
most 30 000 ms updates all three fields. -/
theorem c10_packet_received_discards_bad_latency (m : MetricsInner)
    (l : ℚ) :
    (l > 30000 →
      packetReceived m l =
        { m with packets_received := m.packets_received + 1 }) ∧
    (l ≤ 30000 →
      packetReceived m l =
        { m with
          packets_received := m.packets_received + 1
          total_latency_ms := m.total_latency_ms + l
          latency_samples := m.latency_samples + 1 }) := by
  constructor
  · intro h
    simp only [packetReceived, if_pos h]
  · intro h
    simp only [packetReceived, if_neg (not_lt.mpr h)]

/-- Witness for C10 at concrete latencies on both sides of the cutoff. -/
theorem c10_packet_received_discards_bad_latency_witness :
    ((30001 : ℚ) > 30000 ∧
      packetReceived MetricsInner.new 30001 =
        { MetricsInner.new with
          packets_received := MetricsInner.new.packets_received + 1 }) ∧
    ((100 : ℚ) ≤ 30000 ∧
      packetReceived MetricsInner.new 100 =
        { MetricsInner.new with
          packets_received := MetricsInner.new.packets_received + 1
          total_latency_ms := MetricsInner.new.total_latency_ms + 100
          latency_samples := MetricsInner.new.latency_samples + 1 }) :=
  ⟨⟨by norm_num,
    (c10_packet_received_discards_bad_latency MetricsInner.new 30001).1
      (by norm_num)⟩,
   ⟨by norm_num,
    (c10_packet_received_discards_bad_latency MetricsInner.new 100).2
      (by norm_num)⟩⟩

/-- C9: `clone_box` is not uniform across strategies.  CoDel, BLUE and
FQ-CoDel return freshly constructed instances — empty internal queues,
zero counts and probabilities, constructor timers — discarding the
original's learned state, while RED, Adaptive RED, PIE and
Drop-Tail/FIFO return field-for-field copies. -/
theorem c9_clone_box_not_uniform (stc : CoDelState) (stb : BlueState)
    (stf : FqState) (str : RedState) (sta : ARedState) (stp : PieState)
    (std : DropTailState) (now : ℚ) :
    codelCloneBox stc now = CoDelState.new stc.buffer_size now ∧
    (codelCloneBox stc now).queue = [] ∧
    (codelCloneBox stc now).ctl.count = 0 ∧
    (codelCloneBox stc now).ctl.dropping = false ∧
    (codelCloneBox stc now).ctl.first_above_time = none ∧
    blueCloneBox stb now = BlueState.new stb.buffer_size now ∧
    (blueCloneBox stb now).p_mark = 0 ∧
    (blueCloneBox stb now).last_loss_event = none ∧
    fqCloneBox stf = FqState.new stf.buffer_size ∧
    (fqCloneBox stf).flow_queues = [] ∧
    (fqCloneBox stf).flow_states = [] ∧
    redCloneBox str = str ∧
    aredCloneBox sta = sta ∧
    pieCloneBox stp = stp ∧
    dropTailCloneBox std = std := by
  refine ⟨rfl, rfl, rfl, rfl, rfl, rfl, rfl, rfl, rfl, rfl, rfl, rfl,
    rfl, rfl, rfl⟩

/-- The received counter always advances by one in `packet_received`,
whether or not the sample is kept. -/
theorem packetReceived_received (m : MetricsInner) (l : ℚ) :
    (packetReceived m l).packets_received = m.packets_received + 1 := by
  unfold packetReceived
  split <;> rfl

/-- `packet_received` never touches the sent counter. -/
theorem packetReceived_sent (m : MetricsInner) (l : ℚ) :
    (packetReceived m l).packets_sent = m.packets_sent := by
  unfold packetReceived
  split <;> rfl

/-- `packet_received` never touches the dropped counter. -/
theorem packetReceived_dropped (m : MetricsInner) (l : ℚ) :
    (packetReceived m l).packets_dropped = m.packets_dropped := by
  unfold packetReceived
  split <;> rfl

/-- Conservation invariant for the metrics counters along a well-formed
trace: received + dropped + in-flight = sent + agent-side failures. -/
theorem metricsRun_conservation :
    ∀ (tr : List MetricsEvent) (k : Nat) (m : MetricsInner) (F : Nat),
      validTrace k tr = true →
      m.packets_received + m.packets_dropped + k = m.packets_sent + F →
      (tr.foldl metricsStep m).packets_received +
          (tr.foldl metricsStep m).packets_dropped + finalInflight k tr =
        (tr.foldl metricsStep m).packets_sent + (F + countFails tr) := by
  intro tr
  induction tr with
  | nil =>
      intro k m F _ hinv
      simpa [countFails, finalInflight] using hinv
  | cons e tr ih =>
      intro k m F hv hinv
      cases e with
      | sendOk =>
          have hv' : validTrace (k + 1) tr = true := by
            simpa [validTrace] using hv
          have := ih (k + 1) (packetSent m) F hv' (by simp [packetSent]; omega)
          simpa [List.foldl, metricsStep, countFails, finalInflight,
            List.countP_cons] using this
      | sendFail =>
          have hv' : validTrace k tr = true := by
            simpa [validTrace] using hv
          have := ih k (packetDropped m) (F + 1) hv'
            (by simp [packetDropped]; omega)
          simp only [List.foldl, metricsStep, countFails,
            List.countP_cons] at this ⊢
          simp only [finalInflight]
          simp at this ⊢
          omega
      | serverDrop =>
          rw [validTrace, Bool.and_eq_true, decide_eq_true_iff] at hv
          obtain ⟨hv0, hv'⟩ := hv
          have := ih (k - 1) (packetDropped m) F hv'
            (by simp [packetDropped]; omega)
          simpa [List.foldl, metricsStep, countFails, finalInflight,
            List.countP_cons] using this
      | receive l =>
          rw [validTrace, Bool.and_eq_true, decide_eq_true_iff] at hv
          obtain ⟨hv0, hv'⟩ := hv
          have := ih (k - 1) (packetReceived m l) F hv'
            (by
              rw [packetReceived_received, packetReceived_sent,
                packetReceived_dropped]
              omega)
          simpa [List.foldl, metricsStep, countFails, finalInflight,
            List.countP_cons] using this

/-- C4 (amended): along every well-formed trace,
`packets_received + packets_dropped ≤ packets_sent + (agent-side send
failures)` — a failed send increments `packets_dropped` without ever
incrementing `packets_sent` (`Agent::send_packet` bumps the sent counter
only on the `Ok` path).  When no agent-side failure occurs, the original
bound `received + dropped ≤ sent` holds and the snapshot's
`packet_loss_rate = dropped / sent` lies in `[0, 1]`. -/
theorem c4_counters_bound_amended (tr : List MetricsEvent) (elapsed : ℚ)
    (h : validTrace 0 tr = true) :
    (runMetrics tr).packets_received + (runMetrics tr).packets_dropped ≤
        (runMetrics tr).packets_sent + countFails tr ∧
      (countFails tr = 0 →
        (runMetrics tr).packets_received + (runMetrics tr).packets_dropped ≤
            (runMetrics tr).packets_sent ∧
          0 ≤ (snapshot (runMetrics tr) elapsed).packet_loss_rate ∧
          (snapshot (runMetrics tr) elapsed).packet_loss_rate ≤ 1) := by
  have hcons := metricsRun_conservation tr 0 MetricsInner.new 0 h
    (by simp [MetricsInner.new])
  rw [show (0 : Nat) + countFails tr = countFails tr from by omega] at hcons
  have hle : (runMetrics tr).packets_received +
      (runMetrics tr).packets_dropped ≤
      (runMetrics tr).packets_sent + countFails tr := by
    unfold runMetrics
    omega
  refine ⟨hle, fun hF => ?_⟩
  have hle0 : (runMetrics tr).packets_received +
      (runMetrics tr).packets_dropped ≤ (runMetrics tr).packets_sent := by
    omega
  have hds : (runMetrics tr).packets_dropped ≤
      (runMetrics tr).packets_sent := by omega
  refine ⟨hle0, ?_, ?_⟩
  · unfold snapshot
    dsimp only
    split
    · positivity
    · exact le_refl 0
  · unfold snapshot
    dsimp only
    split
    · rename_i hs
      rw [div_le_one (by exact_mod_cast hs)]
      exact_mod_cast hds
    · exact zero_le_one

/-- Witness for C4 (amended) on a concrete failure-free trace. -/
theorem c4_counters_bound_amended_witness :
    validTrace 0 [.sendOk, .receive 1] = true ∧
      countFails [.sendOk, .receive 1] = 0 ∧
      (runMetrics [.sendOk, .receive 1]).packets_received +
          (runMetrics [.sendOk, .receive 1]).packets_dropped ≤
        (runMetrics [.sendOk, .receive 1]).packets_sent ∧
      0 ≤ (snapshot (runMetrics [.sendOk, .receive 1])
          2).packet_loss_rate ∧
      (snapshot (runMetrics [.sendOk, .receive 1]) 2).packet_loss_rate ≤ 1 :=
  ⟨by decide, by decide,
    (c4_counters_bound_amended [.sendOk, .receive 1] 2 (by decide)).2
      (by decide)⟩

/-- Counterexample for C4 as stated: after a single failed agent send the
dropped counter exceeds the sent counter (`received + dropped ≤ sent`
fails), and after one delivered packet followed by two failed sends the
snapshot reports `packet_loss_rate = 2 ∉ [0, 1]`. -/
theorem c4_counterexample :
    validTrace 0 [.sendFail] = true ∧
      ¬((runMetrics [.sendFail]).packets_received +
          (runMetrics [.sendFail]).packets_dropped ≤
          (runMetrics [.sendFail]).packets_sent) ∧
      validTrace 0 [.sendOk, .receive 1, .sendFail, .sendFail] = true ∧
      (snapshot (runMetrics [.sendOk, .receive 1, .sendFail, .sendFail])
          1).packet_loss_rate = 2 := by
  refine ⟨by decide, by decide, by decide, ?_⟩
  norm_num [snapshot, runMetrics, List.foldl, metricsStep, packetSent,
    packetDropped, packetReceived, MetricsInner.new]

/-- C1 (amended): for a Drop-Tail or FIFO governed server the buffer
bound is preserved: if `len ≤ buffer_size` before an enqueue, it still
holds afterwards, because the strategy returns `Drop` whenever the
pre-insertion length has reached `buffer_size`.  (The server itself
performs no capacity check, so the bound is not maintained for PIE or
RED; see the counterexample.) -/
theorem c1_buffer_bound_amended (st : DropTailState)
    (buffer : List Packet) (p : Packet)
    (h : buffer.length ≤ st.buffer_size) :
    (serverEnqueueDropTail st buffer p).length ≤ st.buffer_size := by
  unfold serverEnqueueDropTail dropTailOnEnqueue
  by_cases hge : buffer.length ≥ st.buffer_size
  · rw [if_pos hge]
    simpa [serverApply] using h
  · rw [if_neg hge]
    simp only [serverApply, List.length_append, List.length_cons,
      List.length_nil]
    omega

/-- Witness for C1 (amended) on a concrete server with capacity 4. -/
theorem c1_buffer_bound_amended_witness :
    ([samplePacket] : List Packet).length ≤
        (DropTailState.new 4).buffer_size ∧
      (serverEnqueueDropTail (DropTailState.new 4) [samplePacket]
          samplePacket).length ≤ (DropTailState.new 4).buffer_size :=
  ⟨by decide, c1_buffer_bound_amended (DropTailState.new 4) [samplePacket]
    samplePacket (by decide)⟩

/-- Counterexample for C1 as stated: a server configured with
`buffer_size = 4` but governed by PIE (whose registry factory ignores the
buffer size, and whose `on_enqueue` accepts unconditionally inside the
burst-allowance window) reaches a buffer of length 4 after four arrivals
and still pushes the fifth arrival, so the buffer grows to 5 >
`buffer_size`.  `Server::enqueue_packet` has no capacity check of its
own. -/
theorem c1_counterexample :
    (pieServerRunN 4).2.length = 4 ∧
      (pieServerRunN 4).1.burst_start = some 0 ∧
      (serverEnqueuePie (pieServerRunN 4).1 (pieServerRunN 4).2
          samplePacket 0 (1 / 2)).2.length = 5 := by
  norm_num [pieServerRunN, serverEnqueuePie, pieOnEnqueue,
    pieOnEnqueueTail, PieState.new, serverApply, List.replicate]

/-- C5 (amended): at every effective PIE update (one separated from the
previous by at least the 30 ms update interval), `drop_prob` is monotone
non-decreasing when the measured qdelay exceeds the 15 ms target *and*
does not undershoot the previously measured delay, and monotone
non-increasing when the measured qdelay is below target *and* does not
exceed the previous measurement.  The extra comparisons with
`qdelay_old` are forced by the derivative term
`β·(qdelay − qdelay_old)`: a delay that is still above target but
sharply lower than the previous sample makes `drop_prob` fall (see the
counterexample). -/
theorem c5_pie_drop_prob_monotone_amended (st : PieState) (now : ℚ)
    (queueLen : Nat) (s : ℚ)
    (hgap : st.update_interval ≤ now - st.last_update)
    (ha : 0 ≤ st.alpha) (hb : 0 ≤ st.beta)
    (h0 : 0 ≤ st.drop_prob) (h1 : st.drop_prob ≤ 1) :
    (st.target_delay < pieQdelay st queueLen s →
      st.qdelay_old ≤ pieQdelay st queueLen s →
      st.drop_prob ≤ (pieUpdate st now queueLen s).drop_prob) ∧
    (pieQdelay st queueLen s < st.target_delay →
      pieQdelay st queueLen s ≤ st.qdelay_old →
      (pieUpdate st now queueLen s).drop_prob ≤ st.drop_prob) := by
  unfold pieUpdate
  rw [if_neg (not_lt.mpr hgap)]
  constructor
  · intro hT hold
    have hΔ : 0 ≤ st.alpha * (pieQdelay st queueLen s - st.target_delay) +
        st.beta * (pieQdelay st queueLen s - st.qdelay_old) :=
      add_nonneg (mul_nonneg ha (by linarith)) (mul_nonneg hb (by linarith))
    dsimp only
    have hmin : st.drop_prob ≤
        min 1 (st.drop_prob +
          st.alpha * (pieQdelay st queueLen s - st.target_delay) +
          st.beta * (pieQdelay st queueLen s - st.qdelay_old)) :=
      le_min h1 (by linarith)
    exact le_trans hmin (le_max_right 0 _)
  · intro hT hold
    have hΔ : st.alpha * (pieQdelay st queueLen s - st.target_delay) +
        st.beta * (pieQdelay st queueLen s - st.qdelay_old) ≤ 0 :=
      add_nonpos (mul_nonpos_of_nonneg_of_nonpos ha (by linarith))
        (mul_nonpos_of_nonneg_of_nonpos hb (by linarith))
    dsimp only
    exact max_le h0 (le_trans (min_le_right 1 _) (by linarith))

/-- Witness for C5 (amended): the increasing direction at a fresh PIE
instance measuring a 100 ms delay. -/
theorem c5_pie_drop_prob_monotone_amended_witness :
    (PieState.new 100 0).update_interval ≤
        30 - (PieState.new 100 0).last_update ∧
      (PieState.new 100 0).target_delay <
        pieQdelay (PieState.new 100 0) 0 100 ∧
      (PieState.new 100 0).qdelay_old ≤
        pieQdelay (PieState.new 100 0) 0 100 ∧
      (PieState.new 100 0).drop_prob ≤
        (pieUpdate (PieState.new 100 0) 30 0 100).drop_prob :=
  ⟨by norm_num [PieState.new],
    by norm_num [PieState.new, pieQdelay],
    by norm_num [PieState.new, pieQdelay],
    (c5_pie_drop_prob_monotone_amended (PieState.new 100 0) 30 0 100
        (by norm_num [PieState.new]) (by norm_num [PieState.new])
        (by norm_num [PieState.new]) (by norm_num [PieState.new])
        (by norm_num [PieState.new])).1
      (by norm_num [PieState.new, pieQdelay])
      (by norm_num [PieState.new, pieQdelay])⟩

/-- Counterexample for C5 as stated: two consecutive effective updates,
30 ms apart, both measuring a qdelay above the 15 ms target (100 ms, then
16 ms), yet `drop_prob` falls from 1 to 0 — the derivative term
`β·(16 − 100)` dominates.  So `drop_prob` is not monotone non-decreasing
under the claim's hypotheses alone. -/
theorem c5_counterexample :
    pieQdelay (PieState.new 100 0) 0 100 > 15 ∧
      30 - (PieState.new 100 0).last_update ≥
        (PieState.new 100 0).update_interval ∧
      pieC5a.drop_prob = 1 ∧
      pieQdelay pieC5a 0 16 > 15 ∧
      60 - pieC5a.last_update ≥ pieC5a.update_interval ∧
      pieC5b.drop_prob = 0 ∧
      pieC5b.drop_prob < pieC5a.drop_prob := by
  norm_num [pieC5a, pieC5b, pieUpdate, pieQdelay, pieEstimateQueueDelay,
    PieState.new, max_def, min_def]

/-- Probability clamped upward by `min(· + d, 1)` stays in `[0, 1]`. -/
theorem clampInc01 {p d : ℚ} (hp0 : 0 ≤ p) (hd : 0 ≤ d) :
    0 ≤ min (p + d) 1 ∧ min (p + d) 1 ≤ 1 :=
  ⟨le_min (by linarith) (by norm_num), min_le_right _ _⟩

/-- Probability clamped downward by `max(· − d, 0)` stays in `[0, 1]`. -/
theorem clampDec01 {p d : ℚ} (hp1 : p ≤ 1) (hd : 0 ≤ d) :
    0 ≤ max (p - d) 0 ∧ max (p - d) 0 ≤ 1 :=
  ⟨le_max_right _ _, max_le (by linarith) (by norm_num)⟩

/-- One accepted RED enqueue at queue length zero: the EWMA stays at
zero, the probability is zero, the packet is accepted and `count`
advances. -/
theorem redC3_step (n : Nat) :
    redOnEnqueue { RedState.new 100 with count := n } 0 (1 / 2) =
      (.accept, { RedState.new 100 with count := n + 1 }) := by
  norm_num [redOnEnqueue, redEwma, calcProbability, RedState.new, max_def]

/-- The RED state reached by `n` accepted packets at queue length zero:
fresh parameters, zero average, `count = n`. -/
theorem redC3Run_eq (n : Nat) :
    redC3Run n = { RedState.new 100 with count := n } := by
  induction n with
  | zero => rfl
  | succ n ih =>
      unfold redC3Run at ih ⊢
      rw [List.replicate_succ', List.foldl_append, ih, List.foldl_cons,
        List.foldl_nil, redC3_step]

/-- C3 (amended): the guarded numeric operations do keep their values in
range — PIE's updated `drop_prob` is clamped to `[0, 1]`; BLUE's
`p_mark` stays in `[0, 1]` under every callback; CoDel's control law
divides by `max(√count, 1) ≥ 1`, giving a positive backoff of at most
`interval`; RED's base band probability `p_b` lies in `[0, 1]`; and
RED's probabilistic drop comparison is syntactically gated so that the
random sample is consulted only when the computed probability is
strictly between 0 and 1.  But RED's count-adjusted probability
`p_b / (1 − count·p_b)` itself is not clamped and leaves `[0, 1]` at
reachable states (see the counterexample). -/
theorem c3_numeric_safety_amended
    (B : Nat) (avg : ℚ)
    (stp : PieState) (now s : ℚ) (qlen : Nat)
    (stb : BlueState) (nowb d : ℚ) (qlenb : Nat)
    (sqrtv : Nat → ℚ) (interval : ℚ) (count : Nat)
    (str : RedState) (qr : Nat) (dr : ℚ)
    (hin : (RedState.new B).min_th ≤ avg)
    (hlt : avg < (RedState.new B).max_th)
    (hp0 : 0 ≤ stp.drop_prob) (hp1 : stp.drop_prob ≤ 1)
    (hm0 : 0 ≤ stb.p_mark) (hm1 : stb.p_mark ≤ 1)
    (hd1 : 0 ≤ stb.d1) (hd2 : 0 ≤ stb.d2)
    (_hsq : 0 ≤ sqrtv count) (hi : 0 < interval) :
    (0 ≤ redPbBand (RedState.new B) avg ∧
        redPbBand (RedState.new B) avg ≤ 1) ∧
      (0 ≤ (pieUpdate stp now qlen s).drop_prob ∧
        (pieUpdate stp now qlen s).drop_prob ≤ 1) ∧
      (0 ≤ (blueOnEnqueue stb nowb qlenb d).2.p_mark ∧
        (blueOnEnqueue stb nowb qlenb d).2.p_mark ≤ 1) ∧
      (0 ≤ (blueOnDequeue stb nowb qlenb).p_mark ∧
        (blueOnDequeue stb nowb qlenb).p_mark ≤ 1) ∧
      (0 ≤ (blueUpdate stb nowb qlenb).p_mark ∧
        (blueUpdate stb nowb qlenb).p_mark ≤ 1) ∧
      (0 < codelControlLaw sqrtv interval count ∧
        codelControlLaw sqrtv interval count ≤ interval) ∧
      ((redOnEnqueue str qr dr).1 = .drop ↔
        (1 ≤ redOnEnqueueProb str qr ∨
          (0 < redOnEnqueueProb str qr ∧ dr < redOnEnqueueProb str qr))) := by
  have hmm : (RedState.new B).min_th < (RedState.new B).max_th :=
    lt_of_le_of_lt hin hlt
  refine ⟨⟨?_, ?_⟩, ?_, ?_, ?_, ?_, ⟨?_, ?_⟩, ?_⟩
  · unfold redPbBand
    have h10 : (RedState.new B).max_p = 1 / 10 := rfl
    rw [h10]
    have := div_nonneg (by linarith : (0 : ℚ) ≤ avg - (RedState.new B).min_th)
      (by linarith : (0 : ℚ) ≤ (RedState.new B).max_th - (RedState.new B).min_th)
    positivity
  · unfold redPbBand
    have h10 : (RedState.new B).max_p = 1 / 10 := rfl
    rw [h10]
    have hr : (avg - (RedState.new B).min_th) /
        ((RedState.new B).max_th - (RedState.new B).min_th) ≤ 1 :=
      (div_le_one (by linarith)).mpr (by linarith)
    have hr0 : 0 ≤ (avg - (RedState.new B).min_th) /
        ((RedState.new B).max_th - (RedState.new B).min_th) :=
      div_nonneg (by linarith) (by linarith)
    nlinarith
  · unfold pieUpdate
    split
    · exact ⟨hp0, hp1⟩
    · exact ⟨le_max_left 0 _,
        max_le zero_le_one (min_le_left 1 _)⟩
  · unfold blueOnEnqueue
    dsimp only
    split
    · rename_i h1
      split
      · split
        · split
          · exact clampInc01 (clampInc01 hm0 hd1).1 (by linarith)
          · exact clampInc01 hm0 hd1
        · exact clampInc01 hm0 hd1
      · split
        · exact clampInc01 hm0 hd1
        · exact clampInc01 hm0 hd1
    · split
      · split
        · split
          · exact clampInc01 hm0 (by linarith)
          · exact ⟨hm0, hm1⟩
        · exact ⟨hm0, hm1⟩
      · split
        · exact ⟨hm0, hm1⟩
        · exact ⟨hm0, hm1⟩
  · unfold blueOnDequeue
    split
    · split
      · split
        · exact clampDec01 hm1 hd2
        · exact ⟨hm0, hm1⟩
      · exact clampDec01 hm1 hd2
    · exact ⟨hm0, hm1⟩
  · unfold blueUpdate
    split
    · dsimp only
      split
      · exact clampInc01 hm0 (by linarith)
      · split
        · exact clampDec01 hm1 (by linarith)
        · exact ⟨hm0, hm1⟩
    · exact ⟨hm0, hm1⟩
  · unfold codelControlLaw
    apply div_pos hi
    exact lt_of_lt_of_le zero_lt_one (le_max_right _ 1)
  · unfold codelControlLaw
    exact div_le_self (le_of_lt hi) (le_max_right _ 1)
  · unfold redOnEnqueue redOnEnqueueProb
    dsimp only
    split
    · rename_i h
      exact ⟨fun _ => Or.inl h, fun _ => rfl⟩
    · rename_i h
      split
      · rename_i h2
        exact ⟨fun _ => Or.inr h2, fun _ => rfl⟩
      · rename_i h2
        refine ⟨fun hcon => Action.noConfusion hcon, fun hcon => absurd hcon ?_⟩
        intro hc
        rcases hc with hc | hc
        · exact h hc
        · exact h2 hc

/-- Witness for C3 (amended) at concrete in-range inputs. -/
theorem c3_numeric_safety_amended_witness :
    ((RedState.new 100).min_th ≤ 40 ∧ (40 : ℚ) < (RedState.new 100).max_th ∧
      0 ≤ (PieState.new 100 0).drop_prob ∧ (PieState.new 100 0).drop_prob ≤ 1 ∧
      0 ≤ (BlueState.new 100 0).p_mark ∧ (BlueState.new 100 0).p_mark ≤ 1 ∧
      0 ≤ (BlueState.new 100 0).d1 ∧ 0 ≤ (BlueState.new 100 0).d2 ∧
      (0 : ℚ) ≤ 2 ∧ (0 : ℚ) < 100) ∧
      ((0 ≤ redPbBand (RedState.new 100) 40 ∧
          redPbBand (RedState.new 100) 40 ≤ 1) ∧
        (0 ≤ (pieUpdate (PieState.new 100 0) 30 0 100).drop_prob ∧
          (pieUpdate (PieState.new 100 0) 30 0 100).drop_prob ≤ 1) ∧
        (0 ≤ (blueOnEnqueue (BlueState.new 100 0) 0 0 (1 / 2)).2.p_mark ∧
          (blueOnEnqueue (BlueState.new 100 0) 0 0 (1 / 2)).2.p_mark ≤ 1) ∧
        (0 ≤ (blueOnDequeue (BlueState.new 100 0) 0 0).p_mark ∧
          (blueOnDequeue (BlueState.new 100 0) 0 0).p_mark ≤ 1) ∧
        (0 ≤ (blueUpdate (BlueState.new 100 0) 0 0).p_mark ∧
          (blueUpdate (BlueState.new 100 0) 0 0).p_mark ≤ 1) ∧
        (0 < codelControlLaw (fun _ => 2) 100 4 ∧
          codelControlLaw (fun _ => 2) 100 4 ≤ 100) ∧
        ((redOnEnqueue (RedState.new 100) 0 (1 / 2)).1 = .drop ↔
          (1 ≤ redOnEnqueueProb (RedState.new 100) 0 ∨
            (0 < redOnEnqueueProb (RedState.new 100) 0 ∧
              (1 / 2 : ℚ) < redOnEnqueueProb (RedState.new 100) 0)))) :=
  ⟨⟨by norm_num [RedState.new, max_def], by norm_num [RedState.new],
      by norm_num [PieState.new], by norm_num [PieState.new],
      by norm_num [BlueState.new], by norm_num [BlueState.new],
      by norm_num [BlueState.new], by norm_num [BlueState.new],
      by norm_num, by norm_num⟩,
    c3_numeric_safety_amended 100 40 (PieState.new 100 0) 30 100 0
      (BlueState.new 100 0) 0 (1 / 2) 0 (fun _ => 2) 100 4
      (RedState.new 100) 0 (1 / 2)
      (by norm_num [RedState.new, max_def]) (by norm_num [RedState.new])
      (by norm_num [PieState.new]) (by norm_num [PieState.new])
      (by norm_num [BlueState.new]) (by norm_num [BlueState.new])
      (by norm_num [BlueState.new]) (by norm_num [BlueState.new])
      (by norm_num) (by norm_num)⟩

/-- Counterexample for C3 as stated: from a fresh `Red::new(100)`, 120
packets accepted at queue length zero (`count = 120`, average still
zero) followed by one arrival at queue length 2000 drive the EWMA to 40
— inside the `[30, 90)` band — where `p_b = 1/60` and the count-adjusted
probability is `(1/60) / (1 − 120·(1/60)) = −1/60 < 0`: the computed
drop probability leaves `[0, 1]` at a reachable state, its denominator
having crossed zero (it is exactly zero at `count = 60`). -/
theorem c3_counterexample :
    redOnEnqueueProb (redC3Run 120) 2000 = -(1 / 60) ∧
      redOnEnqueueProb (redC3Run 120) 2000 < 0 := by
  rw [redC3Run_eq]
  norm_num [redOnEnqueueProb, calcProbability, redEwma, redPbBand,
    RedState.new, max_def]

/-- Control-state decision equivalence is reflexive. -/
theorem ctlEquiv_refl (a : CoDelCtl) : ctlEquiv a a :=
  ⟨rfl, rfl, rfl, fun _ => rfl⟩

/-- The CoDel dequeue loop cannot distinguish control states related by
`ctlEquiv`: it pops the same packets and leaves `ctlEquiv`-related
control states.  In particular a stale `drop_next` carried past a reset
is never consulted, because it is overwritten when dropping mode is
re-entered. -/
theorem codelDeqAux_equiv (sqrtv : Nat → ℚ) (target interval now : ℚ) :
    ∀ (q : List (Packet × ℚ)) (a b : CoDelCtl), ctlEquiv a b →
      (codelDeqAux sqrtv target interval now a q).2 =
          (codelDeqAux sqrtv target interval now b q).2 ∧
        ctlEquiv (codelDeqAux sqrtv target interval now a q).1
          (codelDeqAux sqrtv target interval now b q).1 := by
  intro q
  induction q with
  | nil =>
      intro a b h
      obtain ⟨h1, h2, h3, h4⟩ := h
      simp only [codelDeqAux]
      exact ⟨trivial, rfl, h2, rfl, fun hc => by simp at hc⟩
  | cons hd rest ih =>
      intro a b h
      obtain ⟨h1, h2, h3, h4⟩ := h
      obtain ⟨p, t⟩ := hd
      simp only [codelDeqAux]
      rw [← h1, ← h2, ← h3]
      by_cases hc1 : now - t < target
      · simp only [if_pos hc1]
        exact ⟨trivial, rfl, rfl, rfl, fun hc => by simp at hc⟩
      · simp only [if_neg hc1]
        cases hfa : a.first_above_time with
        | none =>
            simp only
            exact ⟨trivial, rfl, rfl, rfl, fun hc => h4 hc⟩
        | some firstAbove =>
            simp only
            by_cases hc2 : now - firstAbove < interval
            · simp only [if_pos hc2]
              exact ⟨trivial, h1, h2, h3, h4⟩
            · simp only [if_neg hc2]
              by_cases hc3 : a.dropping = false
              · simp only [if_pos hc3]
                exact ⟨trivial, ctlEquiv_refl _⟩
              · simp only [if_neg hc3]
                have ht : a.dropping = true := by
                  revert hc3
                  cases a.dropping <;> simp
                rw [← h4 ht]
                by_cases hc4 : now ≥ a.drop_next
                · simp only [if_pos hc4]
                  exact ⟨trivial, ctlEquiv_refl _⟩
                · simp only [if_neg hc4]
                  exact ⟨trivial, h1, h2, h3, h4⟩

/-- Every RED callback leaves the constructor parameters untouched. -/
theorem redStep_params (st : RedState) (op : StrategyOp) :
    redParams (redStep st op) = redParams st := by
  cases op with
  | enq i =>
      simp only [redStep, redOnEnqueue]
      repeat' split
      all_goals rfl
  | deq i => rfl
  | upd i => rfl

/-- RED parameters are invariant under any callback sequence. -/
theorem redRun_params (ops : List StrategyOp) :
    ∀ st : RedState, redParams (ops.foldl redStep st) = redParams st := by
  induction ops with
  | nil => intro st; rfl
  | cons op ops ih =>
      intro st
      rw [List.foldl_cons, ih, redStep_params]

/-- Every PIE callback leaves the constructor parameters untouched. -/
theorem pieStep_params (st : PieState) (op : StrategyOp) :
    pieParams (pieStep st op) = pieParams st := by
  cases op with
  | enq i =>
      simp only [pieStep, pieOnEnqueue, pieOnEnqueueTail]
      repeat' split
      all_goals rfl
  | deq i => rfl
  | upd i =>
      simp only [pieStep, pieUpdate]
      repeat' split
      all_goals rfl

/-- PIE parameters are invariant under any callback sequence. -/
theorem pieRun_params (ops : List StrategyOp) :
    ∀ st : PieState, pieParams (ops.foldl pieStep st) = pieParams st := by
  induction ops with
  | nil => intro st; rfl
  | cons op ops ih =>
      intro st
      rw [List.foldl_cons, ih, pieStep_params]

/-- Every BLUE callback leaves the constructor parameters untouched. -/
theorem blueStep_params (st : BlueState) (op : StrategyOp) :
    blueParams (blueStep st op) = blueParams st := by
  cases op with
  | enq i =>
      simp only [blueStep, blueOnEnqueue]
      repeat' split
      all_goals rfl
  | deq i =>
      simp only [blueStep, blueOnDequeue]
      repeat' split
      all_goals rfl
  | upd i =>
      simp only [blueStep, blueUpdate]
      repeat' split
      all_goals rfl

/-- BLUE parameters are invariant under any callback sequence. -/
theorem blueRun_params (ops : List StrategyOp) :
    ∀ st : BlueState, blueParams (ops.foldl blueStep st) = blueParams st := by
  induction ops with
  | nil => intro st; rfl
  | cons op ops ih =>
      intro st
      rw [List.foldl_cons, ih, blueStep_params]

/-- Every CoDel callback leaves the constructor parameters untouched. -/
theorem codelStep_params (sqrtv : Nat → ℚ) (st : CoDelState)
    (op : StrategyOp) :
    codelParams (codelStep sqrtv st op) = codelParams st := by
  cases op with
  | enq i =>
      simp only [codelStep, codelOnEnqueue]
      repeat' split
      all_goals rfl
  | deq i => rfl
  | upd i => rfl

/-- CoDel parameters are invariant under any callback sequence. -/
theorem codelRun_params (sqrtv : Nat → ℚ) (ops : List StrategyOp) :
    ∀ st : CoDelState,
      codelParams (ops.foldl (codelStep sqrtv) st) = codelParams st := by
  induction ops with
  | nil => intro st; rfl
  | cons op ops ih =>
      intro st
      rw [List.foldl_cons, ih, codelStep_params]

/-- Every FQ-CoDel callback leaves the constructor parameters
untouched. -/
theorem fqStep_params (sqrtv : Nat → ℚ) (st : FqState) (op : StrategyOp) :
    fqParams (fqStep sqrtv st op) = fqParams st := by
  cases op with
  | enq i =>
      simp only [fqStep, fqOnEnqueue]
      repeat' split
      all_goals rfl
  | deq i => rfl
  | upd i => rfl

/-- FQ-CoDel parameters are invariant under any callback sequence. -/
theorem fqRun_params (sqrtv : Nat → ℚ) (ops : List StrategyOp) :
    ∀ st : FqState, fqParams (ops.foldl (fqStep sqrtv) st) = fqParams st := by
  induction ops with
  | nil => intro st; rfl
  | cons op ops ih =>
      intro st
      rw [List.foldl_cons, ih, fqStep_params]

/-- A single CoDel callback preserves decision equivalence of states. -/
theorem codelStep_equiv (sqrtv : Nat → ℚ) (op : StrategyOp)
    (a b : CoDelState) (h : codelStateEquiv a b) :
    codelStateEquiv (codelStep sqrtv a op) (codelStep sqrtv b op) := by
  obtain ⟨ht, hi, hb, hq, hc⟩ := h
  cases op with
  | enq i =>
      simp only [codelStep, codelOnEnqueue]
      rw [← hq, ← hb]
      by_cases hcond : a.queue.length ≥ a.buffer_size
      · simp only [if_pos hcond]
        exact ⟨ht, hi, hb, hq, hc⟩
      · simp only [if_neg hcond]
        exact ⟨ht, hi, rfl, rfl, hc⟩
  | deq i =>
      simp only [codelStep, codelOnDequeue]
      rw [← ht, ← hi, ← hq]
      obtain ⟨hq2, hc2⟩ :=
        codelDeqAux_equiv sqrtv a.target a.interval i.now a.queue a.ctl
          b.ctl hc
      exact ⟨rfl, rfl, hb, hq2, hc2⟩
  | upd i => exact ⟨ht, hi, hb, hq, hc⟩

/-- Replaying the same callback sequence from decision-equivalent CoDel
states keeps them decision-equivalent. -/
theorem codelFold_equiv (sqrtv : Nat → ℚ) (ops : List StrategyOp) :
    ∀ a b, codelStateEquiv a b →
      codelStateEquiv (ops.foldl (codelStep sqrtv) a)
        (ops.foldl (codelStep sqrtv) b) := by
  induction ops with
  | nil => intro a b h; exact h
  | cons op ops ih =>
      intro a b h
      exact ih _ _ (codelStep_equiv sqrtv op a b h)

/-- C6 (amended): after any sequence of callbacks, `reset()` returns
RED, PIE, BLUE, FQ-CoDel and Drop-Tail/FIFO to a state literally equal
to a freshly constructed instance (timer fields set to the reset
instant, exactly as a constructor running at that instant would), and
returns CoDel to a state decision-equivalent to a fresh instance: every
field is restored except the stale `drop_next`, which is never read
before being overwritten, so replaying any callback sequence after the
reset produces the same decisions as a fresh instance.  Adaptive RED is
the exception — its `reset` keeps the adapted `max_p` instead of the
constructor's 0.1 (see the counterexample). -/
theorem c6_reset_amended (B : Nat) (bw t0 t : ℚ) (sqrtv : Nat → ℚ)
    (opsR opsP opsB opsC opsF opsD ops2 : List StrategyOp) :
    redReset (opsR.foldl redStep (RedState.new B)) = RedState.new B ∧
      pieReset (opsP.foldl pieStep (PieState.new bw t0)) t =
        PieState.new bw t ∧
      blueReset (opsB.foldl blueStep (BlueState.new B t0)) t =
        BlueState.new B t ∧
      fqReset (opsF.foldl (fqStep sqrtv) (FqState.new B)) = FqState.new B ∧
      dropTailReset (opsD.foldl dropTailStep (DropTailState.new B)) =
        DropTailState.new B ∧
      codelStateEquiv
        (ops2.foldl (codelStep sqrtv)
          (codelReset (opsC.foldl (codelStep sqrtv) (CoDelState.new B t0))))
        (ops2.foldl (codelStep sqrtv) (CoDelState.new B t)) := by
  refine ⟨?_, ?_, ?_, ?_, ?_, ?_⟩
  · have h := redRun_params opsR (RedState.new B)
    have h1 : (opsR.foldl redStep (RedState.new B)).min_th =
        (RedState.new B).min_th := congrArg Prod.fst h
    have h2 : (opsR.foldl redStep (RedState.new B)).max_th =
        (RedState.new B).max_th := congrArg (fun q => q.2.1) h
    have h3 : (opsR.foldl redStep (RedState.new B)).max_p =
        (RedState.new B).max_p := congrArg (fun q => q.2.2.1) h
    have h4 : (opsR.foldl redStep (RedState.new B)).w_q =
        (RedState.new B).w_q := congrArg (fun q => q.2.2.2) h
    unfold redReset
    rw [h1, h2, h3, h4]
    rfl
  · have h := pieRun_params opsP (PieState.new bw t0)
    have h1 : (opsP.foldl pieStep (PieState.new bw t0)).target_delay =
        (PieState.new bw t0).target_delay := congrArg Prod.fst h
    have h2 : (opsP.foldl pieStep (PieState.new bw t0)).alpha =
        (PieState.new bw t0).alpha := congrArg (fun q => q.2.1) h
    have h3 : (opsP.foldl pieStep (PieState.new bw t0)).beta =
        (PieState.new bw t0).beta := congrArg (fun q => q.2.2.1) h
    have h4 : (opsP.foldl pieStep (PieState.new bw t0)).update_interval =
        (PieState.new bw t0).update_interval :=
      congrArg (fun q => q.2.2.2.1) h
    have h5 : (opsP.foldl pieStep (PieState.new bw t0)).burst_allowance =
        (PieState.new bw t0).burst_allowance :=
      congrArg (fun q => q.2.2.2.2.1) h
    have h6 : (opsP.foldl pieStep (PieState.new bw t0)).bandwidth_bps =
        (PieState.new bw t0).bandwidth_bps :=
      congrArg (fun q => q.2.2.2.2.2) h
    unfold pieReset
    rw [h1, h2, h3, h4, h5, h6]
    rfl
  · have h := blueRun_params opsB (BlueState.new B t0)
    have h1 : (opsB.foldl blueStep (BlueState.new B t0)).d1 =
        (BlueState.new B t0).d1 := congrArg Prod.fst h
    have h2 : (opsB.foldl blueStep (BlueState.new B t0)).d2 =
        (BlueState.new B t0).d2 := congrArg (fun q => q.2.1) h
    have h3 : (opsB.foldl blueStep (BlueState.new B t0)).freeze_time =
        (BlueState.new B t0).freeze_time := congrArg (fun q => q.2.2.1) h
    have h4 : (opsB.foldl blueStep (BlueState.new B t0)).buffer_size =
        (BlueState.new B t0).buffer_size := congrArg (fun q => q.2.2.2) h
    unfold blueReset
    rw [h1, h2, h3, h4]
    rfl
  · have h := fqRun_params sqrtv opsF (FqState.new B)
    have h1 : (opsF.foldl (fqStep sqrtv) (FqState.new B)).num_flows =
        (FqState.new B).num_flows := congrArg Prod.fst h
    have h2 : (opsF.foldl (fqStep sqrtv) (FqState.new B)).buffer_size =
        (FqState.new B).buffer_size := congrArg (fun q => q.2.1) h
    have h3 : (opsF.foldl (fqStep sqrtv) (FqState.new B)).target =
        (FqState.new B).target := congrArg (fun q => q.2.2.1) h
    have h4 : (opsF.foldl (fqStep sqrtv) (FqState.new B)).interval =
        (FqState.new B).interval := congrArg (fun q => q.2.2.2) h
    unfold fqReset
    rw [h1, h2, h3, h4]
    rfl
  · have h : opsD.foldl dropTailStep (DropTailState.new B) =
        DropTailState.new B := by
      induction opsD with
      | nil => rfl
      | cons op ops ih => rw [List.foldl_cons]; exact ih
    rw [h]
    rfl
  · apply codelFold_equiv
    have h := codelRun_params sqrtv opsC (CoDelState.new B t0)
    have h1 : (opsC.foldl (codelStep sqrtv) (CoDelState.new B t0)).target =
        (CoDelState.new B t0).target := congrArg Prod.fst h
    have h2 :
        (opsC.foldl (codelStep sqrtv) (CoDelState.new B t0)).interval =
        (CoDelState.new B t0).interval := congrArg (fun q => q.2.1) h
    have h3 :
        (opsC.foldl (codelStep sqrtv) (CoDelState.new B t0)).buffer_size =
        (CoDelState.new B t0).buffer_size := congrArg (fun q => q.2.2) h
    exact ⟨h1, h2, h3, rfl, rfl, rfl, rfl, fun hc => Bool.noConfusion hc⟩

/-- Counterexample for C6 as stated: one effective Adaptive RED update
(average 0 below target, 500 ms elapsed) raises `max_p` from 0.1 to
0.11; the subsequent `reset()` keeps `max_p = 0.11`, so the result
differs from a freshly constructed instance, and replaying the same
arrival with the same draw 0.017 yields `Drop` after the reset but
`Accept` on a fresh instance. -/
theorem c6_counterexample :
    aredC6.red.max_p = 11 / 100 ∧
      (ARedState.new 100 500).red.max_p = 1 / 10 ∧
      aredC6 ≠ ARedState.new 100 500 ∧
      (aredOnEnqueue aredC6 2000 (17 / 1000)).1 = .drop ∧
      (aredOnEnqueue (ARedState.new 100 500) 2000 (17 / 1000)).1 =
        .accept := by
  have hnew0 : ARedState.new 100 0 =
      { red :=
          { min_th := 30, max_th := 90, max_p := 1 / 10,
            w_q := 1 / 50, avg_queue := 0, count := 0 },
        target := 60, alpha := 1 / 100, beta := 9 / 10,
        last_update := 0 } := by
    norm_num [ARedState.new, RedState.new, max_def, ARedState.mk.injEq,
      RedState.mk.injEq]
  have hnew500 : ARedState.new 100 500 =
      { red :=
          { min_th := 30, max_th := 90, max_p := 1 / 10,
            w_q := 1 / 50, avg_queue := 0, count := 0 },
        target := 60, alpha := 1 / 100, beta := 9 / 10,
        last_update := 500 } := by
    norm_num [ARedState.new, RedState.new, max_def, ARedState.mk.injEq,
      RedState.mk.injEq]
  have hres : aredC6 =
      { red :=
          { min_th := 30, max_th := 90, max_p := 11 / 100,
            w_q := 1 / 50, avg_queue := 0, count := 0 },
        target := 60, alpha := 1 / 100, beta := 9 / 10,
        last_update := 500 } := by
    unfold aredC6
    rw [hnew0]
    norm_num [aredUpdate, aredReset, redUpdate, redReset, redEwma,
      min_def, ARedState.mk.injEq, RedState.mk.injEq]
  have henq1 : redOnEnqueue
      { min_th := 30, max_th := 90, max_p := 11 / 100, w_q := 1 / 50,
        avg_queue := 0, count := 0 } 2000 (17 / 1000) =
      (.drop,
        { min_th := 30, max_th := 90, max_p := 11 / 100, w_q := 1 / 50,
          avg_queue := 40, count := 0 }) := by
    norm_num [redOnEnqueue, redEwma, calcProbability, redPbBand,
      Prod.mk.injEq, RedState.mk.injEq]
  have henq2 : redOnEnqueue
      { min_th := 30, max_th := 90, max_p := 1 / 10, w_q := 1 / 50,
        avg_queue := 0, count := 0 } 2000 (17 / 1000) =
      (.accept,
        { min_th := 30, max_th := 90, max_p := 1 / 10, w_q := 1 / 50,
          avg_queue := 40, count := 1 }) := by
    norm_num [redOnEnqueue, redEwma, calcProbability, redPbBand,
      Prod.mk.injEq, RedState.mk.injEq]
  refine ⟨?_, ?_, ?_, ?_, ?_⟩
  · rw [hres]
  · rw [hnew500]
  · rw [hres, hnew500]
    simp only [ne_eq, ARedState.mk.injEq, RedState.mk.injEq]
    norm_num
  · rw [hres]
    dsimp only [aredOnEnqueue]
    rw [henq1]
  · rw [hnew500]
    dsimp only [aredOnEnqueue]
    rw [henq2]

/-- With distinct keys, an association-list entry determines the lookup
result. -/
theorem alistLookup_eq_of_mem {α : Type} (qs : List (Nat × α))
    (hnd : (qs.map Prod.fst).Nodup) (k : Nat) (v : α)
    (h : (k, v) ∈ qs) : alistLookup qs k = some v := by
  induction qs with
  | nil => cases h
  | cons e rest ih =>
      rw [List.map_cons, List.nodup_cons] at hnd
      rcases List.mem_cons.mp h with h0 | h0
      · subst h0
        simp [alistLookup, List.find?_cons]
      · have hne : e.1 ≠ k := by
          intro hk
          exact hnd.1 (hk ▸ List.mem_map_of_mem Prod.fst h0)
        have hd : (decide (e.1 = k)) = false := decide_eq_false hne
        simp only [alistLookup, List.find?_cons, hd]
        exact ih hnd.2 h0

/-- A successful lookup comes from an entry of the list with that key. -/
theorem alistLookup_some_mem {α : Type} (qs : List (Nat × α)) (k : Nat)
    (v : α) (h : alistLookup qs k = some v) : (k, v) ∈ qs := by
  unfold alistLookup at h
  cases hf : qs.find? (fun e => e.1 = k) with
  | none => rw [hf] at h; cases h
  | some e =>
      rw [hf] at h
      have hmem := List.mem_of_find?_eq_some hf
      have hk1 := List.find?_some hf
      have hkey : e.1 = k := of_decide_eq_true hk1
      obtain ⟨e1, e2⟩ := e
      have hv : e2 = v := by simpa using h
      have hkey2 : e1 = k := by simpa using hkey
      rw [← hkey2, ← hv]
      exact hmem

/-- Serving a list of flow ids whose queues are all empty changes
nothing. -/
theorem fqServe_all_empty (qs : List (Nat × List (Packet × ℚ)))
    (h : ∀ e ∈ qs, e.2 = ([] : List (Packet × ℚ))) :
    ∀ ids, fqServe qs ids = qs := by
  intro ids
  induction ids with
  | nil => rfl
  | cons i rest ih =>
      simp only [fqServe]
      cases hl : alistLookup qs i with
      | none => exact ih
      | some l =>
          cases l with
          | nil => exact ih
          | cons p ps =>
              exfalso
              have hmem := alistLookup_some_mem qs i (p :: ps) hl
              exact List.cons_ne_nil p ps (h (i, p :: ps) hmem)

/-- Serving skips a flow id whose queue is absent or empty. -/
theorem fqServe_skip (qs : List (Nat × List (Packet × ℚ))) (i : Nat)
    (ids : List Nat)
    (h : alistLookup qs i = none ∨
      alistLookup qs i = some ([] : List (Packet × ℚ))) :
    fqServe qs (i :: ids) = fqServe qs ids := by
  rcases h with h | h <;> simp [fqServe, h]

/-- Serving pops the head of the first flow id whose queue is
non-empty. -/
theorem fqServe_hit (qs : List (Nat × List (Packet × ℚ))) (i : Nat)
    (ids : List Nat) (p : Packet × ℚ) (ps : List (Packet × ℚ))
    (h : alistLookup qs i = some (p :: ps)) :
    fqServe qs (i :: ids) =
      qs.map (fun e => if e.1 = i then (e.1, e.2.tail) else e) := by
  simp [fqServe, h]

/-- Serving a prefix of ids whose queues are all absent or empty reduces
to serving the remainder. -/
theorem fqServe_skip_prefix (qs : List (Nat × List (Packet × ℚ))) :
    ∀ (pre post : List Nat),
      (∀ i ∈ pre, alistLookup qs i = none ∨
        alistLookup qs i = some ([] : List (Packet × ℚ))) →
      fqServe qs (pre ++ post) = fqServe qs post := by
  intro pre
  induction pre with
  | nil => intro post _; rfl
  | cons i rest ih =>
      intro post h
      rw [List.cons_append,
        fqServe_skip qs i (rest ++ post) (h i (List.mem_cons_self i rest)),
        ih post (fun j hj => h j (List.mem_cons_of_mem i hj))]

/-- Popping at key `m` is the identity on a list without key `m`. -/
theorem fq_map_pop_id (m : Nat) :
    ∀ (l : List (Nat × List (Packet × ℚ))),
      (∀ e ∈ l, e.1 ≠ m) →
      l.map (fun e => if e.1 = m then (e.1, e.2.tail) else e) = l := by
  intro l
  induction l with
  | nil => intro _; rfl
  | cons e rest ih =>
      intro h
      rw [List.map_cons, if_neg (h e (List.mem_cons_self e rest)),
        ih (fun x hx => h x (List.mem_cons_of_mem e hx))]

/-- Popping the head of the unique entry with key `m` shrinks the total
queued-packet count by exactly one, leaving every other entry
untouched. -/
theorem fq_pop_totalLen (m : Nat) (p : Packet × ℚ) :
    ∀ (qs : List (Nat × List (Packet × ℚ))),
      (qs.map Prod.fst).Nodup →
      ∀ ps, (m, p :: ps) ∈ qs →
      ((qs.map (fun e => if e.1 = m then (e.1, e.2.tail) else e)).map
          (fun e => e.2.length)).sum + 1 =
        (qs.map (fun e => e.2.length)).sum := by
  intro qs
  induction qs with
  | nil => intro _ ps h; cases h
  | cons e rest ih =>
      intro hnd ps h
      rw [List.map_cons, List.nodup_cons] at hnd
      rcases List.mem_cons.mp h with h0 | h0
      · have h0' := h0.symm
        subst h0'
        have hrest := fq_map_pop_id m rest
          (fun x hx hk => hnd.1 (by
            show m ∈ List.map Prod.fst rest
            rw [← hk]
            exact List.mem_map_of_mem Prod.fst hx))
        rw [List.map_cons, hrest, if_pos rfl]
        simp only [List.map_cons, List.sum_cons, List.length_cons,
          List.tail_cons]
        omega
      · have hne : e.1 ≠ m := by
          intro hk
          exact hnd.1 (hk ▸ List.mem_map_of_mem Prod.fst h0)
        rw [List.map_cons, if_neg hne, List.map_cons, List.sum_cons,
          List.map_cons, List.sum_cons]
        have := ih hnd.2 ps h0
        omega

/-- C2 (amended): `FqCoDel::on_dequeue` keeps no round-robin cursor.  On
a state whose flow-queue keys are distinct (as `HashMap` keys are), a
call removes nothing when every flow queue is empty, and otherwise
removes exactly one packet — the head of the non-empty flow with the
*smallest* flow id.  Consecutive dequeues therefore keep serving the
lowest-numbered backlogged flow instead of cycling through the flows
(see the counterexample). -/
theorem c2_fq_dequeue_amended (st : FqState)
    (hnd : (st.flow_queues.map Prod.fst).Nodup) :
    ((∀ e ∈ st.flow_queues, e.2 = ([] : List (Packet × ℚ))) →
      fqOnDequeue st = st) ∧
      (∀ (m : Nat) (p : Packet × ℚ) (ps : List (Packet × ℚ)),
        (m, p :: ps) ∈ st.flow_queues →
        (∀ (i : Nat) (l : List (Packet × ℚ)),
          (i, l) ∈ st.flow_queues → l ≠ [] → m ≤ i) →
        (fqOnDequeue st).flow_queues =
            st.flow_queues.map
              (fun e => if e.1 = m then (e.1, e.2.tail) else e) ∧
          fqTotalLen (fqOnDequeue st) + 1 = fqTotalLen st) := by
  constructor
  · intro h
    show { st with
        flow_queues := fqServe st.flow_queues
          ((st.flow_queues.map Prod.fst).mergeSort (fun a b => a ≤ b)) } =
      st
    rw [fqServe_all_empty st.flow_queues h]
  · intro m p ps hmem hmin
    have hperm :=
      List.mergeSort_perm (st.flow_queues.map Prod.fst) (fun a b => a ≤ b)
    have hmids : m ∈ (st.flow_queues.map Prod.fst).mergeSort
        (fun a b => a ≤ b) :=
      hperm.mem_iff.mpr (List.mem_map_of_mem Prod.fst hmem)
    obtain ⟨l₁, l₂, hsplit⟩ := List.append_of_mem hmids
    have hsorted := @List.sorted_mergeSort Nat (fun a b : Nat => a ≤ b)
      (fun a b c hab hbc => by
        simp only [decide_eq_true_eq] at *
        omega)
      (fun a b => by
        simp only [Bool.or_eq_true, decide_eq_true_eq]
        omega)
      (st.flow_queues.map Prod.fst)
    have hnodup_ids : ((st.flow_queues.map Prod.fst).mergeSort
        (fun a b : Nat => a ≤ b)).Nodup :=
      hperm.nodup_iff.mpr hnd
    have hempty : ∀ i ∈ l₁, alistLookup st.flow_queues i = none ∨
        alistLookup st.flow_queues i =
          some ([] : List (Packet × ℚ)) := by
      intro i hi
      have hle : i ≤ m := by
        rw [hsplit] at hsorted
        have := (List.pairwise_append.mp hsorted).2.2 i hi m
          (List.mem_cons_self m l₂)
        simpa using this
      have hne : i ≠ m := by
        rw [hsplit] at hnodup_ids
        have hd := List.disjoint_of_nodup_append hnodup_ids
        exact fun hEq => hd hi (hEq ▸ List.mem_cons_self m l₂)
      have hkey : i ∈ st.flow_queues.map Prod.fst :=
        hperm.mem_iff.mp (by
          rw [hsplit]
          exact List.mem_append_left _ hi)
      obtain ⟨e, he, hei⟩ := List.mem_map.mp hkey
      obtain ⟨k, l⟩ := e
      have hki : k = i := hei
      subst hki
      by_cases hl : l = []
      · subst hl
        exact Or.inr (alistLookup_eq_of_mem st.flow_queues hnd k [] he)
      · exfalso
        have := hmin k l he hl
        omega
    have hlkm : alistLookup st.flow_queues m = some (p :: ps) :=
      alistLookup_eq_of_mem st.flow_queues hnd m (p :: ps) hmem
    have hserve : fqServe st.flow_queues
        ((st.flow_queues.map Prod.fst).mergeSort (fun a b => a ≤ b)) =
        st.flow_queues.map
          (fun e => if e.1 = m then (e.1, e.2.tail) else e) := by
      rw [hsplit, fqServe_skip_prefix st.flow_queues l₁ (m :: l₂) hempty,
        fqServe_hit st.flow_queues m l₂ p ps hlkm]
    refine ⟨hserve, ?_⟩
    show (({ st with
        flow_queues := fqServe st.flow_queues
          ((st.flow_queues.map Prod.fst).mergeSort
            (fun a b => a ≤ b)) } : FqState).flow_queues.map
        (fun e => e.2.length)).sum + 1 =
      (st.flow_queues.map (fun e => e.2.length)).sum
    rw [show ({ st with
        flow_queues := fqServe st.flow_queues
          ((st.flow_queues.map Prod.fst).mergeSort
            (fun a b => a ≤ b)) } : FqState).flow_queues =
        fqServe st.flow_queues
          ((st.flow_queues.map Prod.fst).mergeSort (fun a b => a ≤ b))
      from rfl, hserve]
    exact fq_pop_totalLen m p st.flow_queues hnd ps hmem

/-- Witness for C2 (amended): with flow 2 backlogged and flow 5 empty,
one dequeue pops flow 2's head and removes exactly one packet. -/
theorem c2_fq_dequeue_amended_witness :
    (c2WitSt.flow_queues.map Prod.fst).Nodup ∧
      (2, [(samplePacket, (0 : ℚ))]) ∈ c2WitSt.flow_queues ∧
      ((fqOnDequeue c2WitSt).flow_queues =
          c2WitSt.flow_queues.map
            (fun e => if e.1 = 2 then (e.1, e.2.tail) else e) ∧
        fqTotalLen (fqOnDequeue c2WitSt) + 1 = fqTotalLen c2WitSt) :=
  ⟨by decide, by decide,
    (c2_fq_dequeue_amended c2WitSt (by decide)).2 2 (samplePacket, 0) []
      (by decide)
      (by
        intro i l hmemil hlne
        have hq : c2WitSt.flow_queues =
            [(2, [(samplePacket, (0 : ℚ))]), (5, [])] := rfl
        rw [hq] at hmemil
        rcases List.mem_cons.mp hmemil with h | h
        · injection h with h1 h2
          omega
        · rcases List.mem_cons.mp h with h | h
          · injection h with h1 h2
            exact absurd h2 hlne
          · cases h)⟩

/-- Counterexample for C2 as stated: two flows (ids 1 and 2) each hold
two packets; two consecutive `on_dequeue` calls both pop from flow 1 —
the code re-sorts the flow ids each call and always serves the first
non-empty one, so flow 2 receives no service in a round of two dequeues
and the claimed round-robin property fails. -/
theorem c2_counterexample :
    (fqOnDequeue (fqOnDequeue c2St)).flow_queues =
      [(1, ([] : List (Packet × ℚ))),
        (2, [(samplePacket, 0), (samplePacket, 0)])] := by
  have hms : ([1, 2] : List Nat).mergeSort (fun a b => a ≤ b) = [1, 2] :=
    List.mergeSort_of_sorted (by decide)
  have h1 : fqOnDequeue c2St =
      { c2St with
        flow_queues :=
          [(1, [(samplePacket, 0)]),
            (2, [(samplePacket, 0), (samplePacket, 0)])] } := by
    show { c2St with
        flow_queues := fqServe c2St.flow_queues
          ((c2St.flow_queues.map Prod.fst).mergeSort
            (fun a b => a ≤ b)) } = _
    rw [show c2St.flow_queues.map Prod.fst = [1, 2] from rfl, hms]
    decide
  rw [h1]
  show { c2St with
      flow_queues := fqServe _
        (((([(1, [(samplePacket, (0 : ℚ))]),
            (2, [(samplePacket, 0),
              (samplePacket, 0)])] : List (Nat × List (Packet × ℚ))).map
            Prod.fst)).mergeSort (fun a b => a ≤ b)) }.flow_queues = _
  rw [show (([(1, [(samplePacket, (0 : ℚ))]),
      (2, [(samplePacket, 0),
        (samplePacket, 0)])] : List (Nat × List (Packet × ℚ))).map
      Prod.fst) = [1, 2] from rfl, hms]
  decide

/-- A fixed-width little-endian encoding has exactly `w` bytes. -/
theorem toLE_length (w : Nat) : ∀ n, (toLE w n).length = w := by
  induction w with
  | zero => intro n; rfl
  | succ w ih =>
      intro n
      simp only [toLE, List.length_cons, ih]

/-- Decoding inverts the fixed-width encoding below `256 ^ w`. -/
theorem fromLE_toLE (w : Nat) : ∀ n, n < 256 ^ w → fromLE (toLE w n) = n := by
  induction w with
  | zero =>
      intro n h
      simp only [Nat.pow_zero, Nat.lt_one_iff] at h
      subst h
      rfl
  | succ w ih =>
      intro n h
      have hdiv : n / 256 < 256 ^ w := by
        rw [Nat.div_lt_iff_lt_mul (by norm_num)]
        calc n < 256 ^ (w + 1) := h
        _ = 256 ^ w * 256 := by rw [Nat.pow_succ]
      simp only [toLE, fromLE, List.foldr_cons]
      have := ih (n / 256) hdiv
      unfold fromLE at this
      rw [this]
      omega

/-- Reading exactly the length of a prefix splits it off. -/
theorem readN_exact (k : Nat) (l₁ l₂ : List Nat) (h : l₁.length = k) :
    readN k (l₁ ++ l₂) = some (l₁, l₂) := by
  subst h
  unfold readN
  rw [if_pos (by simp)]
  rw [List.take_left, List.drop_left]

/-- Reading a fixed-width field from the front of the stream. -/
theorem readN_toLE (w n : Nat) (rest : List Nat) :
    readN w (toLE w n ++ rest) = some (toLE w n, rest) :=
  readN_exact w (toLE w n) rest (toLE_length w n)

/-- Reading a whole remaining stream. -/
theorem readN_self (l : List Nat) : readN l.length l = some (l, []) := by
  unfold readN
  rw [if_pos (le_refl _), List.take_length, List.drop_length]

/-- The priority tag decodes back to the same variant. -/
theorem priorityOfTag_priorityTag (pr : Priority) :
    priorityOfTag (priorityTag pr) = some pr := by
  cases pr <;> rfl

/-- C8: serializing a packet the way the agent does and deserializing
the resulting bytes the way the server does yields the packet back,
field for field — id, source_agent, destination_server, payload_size,
priority, created_at_micros and data are all preserved — for every
packet whose fields respect their Rust integer widths. -/
theorem c8_serialize_roundtrip (p : Packet) (h : PacketWf p) :
    deserializePacket (serializePacket p) = some p := by
  obtain ⟨h1, h2, h3, h4, h5, h6⟩ := h
  have e64 : (256 : Nat) ^ 8 = 2 ^ 64 := by norm_num
  have e32 : (256 : Nat) ^ 4 = 2 ^ 32 := by norm_num
  have e128 : (256 : Nat) ^ 16 = 2 ^ 128 := by norm_num
  have f1 : fromLE (toLE 8 p.id) = p.id :=
    fromLE_toLE 8 p.id (by rw [e64]; exact h1)
  have f2 : fromLE (toLE 4 p.source_agent) = p.source_agent :=
    fromLE_toLE 4 p.source_agent (by rw [e32]; exact h2)
  have f3 : fromLE (toLE 4 p.destination_server) = p.destination_server :=
    fromLE_toLE 4 p.destination_server (by rw [e32]; exact h3)
  have f4 : fromLE (toLE 4 p.payload_size) = p.payload_size :=
    fromLE_toLE 4 p.payload_size (by rw [e32]; exact h4)
  have f5 : fromLE (toLE 16 p.created_at_micros) = p.created_at_micros :=
    fromLE_toLE 16 p.created_at_micros (by rw [e128]; exact h5)
  have f6 : fromLE (toLE 8 p.data.length) = p.data.length :=
    fromLE_toLE 8 p.data.length (by rw [e64]; exact h6)
  have fprio : priorityOfTag (fromLE (toLE 4 (priorityTag p.priority))) =
      some p.priority := by
    rw [fromLE_toLE 4 (priorityTag p.priority)
      (by cases p.priority <;> norm_num [priorityTag])]
    exact priorityOfTag_priorityTag p.priority
  unfold serializePacket deserializePacket
  simp only [List.append_assoc]
  rw [readN_toLE]
  simp only [Option.some_bind]
  rw [readN_toLE]
  simp only [Option.some_bind]
  rw [readN_toLE]
  simp only [Option.some_bind]
  rw [readN_toLE]
  simp only [Option.some_bind]
  rw [readN_toLE]
  simp only [Option.some_bind]
  rw [fprio]
  simp only [Option.some_bind]
  rw [readN_toLE]
  simp only [Option.some_bind]
  rw [readN_toLE]
  simp only [Option.some_bind]
  rw [f6, readN_self]
  simp only [Option.some_bind]
  rw [f1, f2, f3, f4, f5]

/-- Witness for C8 on a concrete packet with non-empty payload. -/
theorem c8_serialize_roundtrip_witness :
    PacketWf
        { id := 7, source_agent := 3, destination_server := 1,
          payload_size := 2, priority := .high,
          created_at_micros := 1000000000000000, data := [10, 20] } ∧
      deserializePacket (serializePacket
          { id := 7, source_agent := 3, destination_server := 1,
            payload_size := 2, priority := .high,
            created_at_micros := 1000000000000000, data := [10, 20] }) =
        some
          { id := 7, source_agent := 3, destination_server := 1,
            payload_size := 2, priority := .high,
            created_at_micros := 1000000000000000, data := [10, 20] } :=
  ⟨by decide,
    c8_serialize_roundtrip
      { id := 7, source_agent := 3, destination_server := 1,
        payload_size := 2, priority := .high,
        created_at_micros := 1000000000000000, data := [10, 20] }
      (by decide)⟩

end FlockNet
